/-
Verification of the vectordb repository: a shallow embedding in Lean 4 of the
vector-math helpers, the three index variants (linear scan, KD-tree, LSH),
the in-memory store, the service facade and the snapshot engine, together
with proofs about the claims of the specification.

Modelling conventions:
* Python floats are modelled as real numbers (`ℝ`); float lists as `List ℝ`.
* Python dicts are modelled as association lists preserving insertion order
  (`List (Key × Value)`); insertion of an existing key replaces the value in
  place, insertion of a fresh key appends at the end, matching CPython dict
  iteration-order semantics.
* Exceptions are modelled with `Except` or result pairs `(Except ε α) × State`
  where mutation matters; a raised exception carries the state at raise time.
* The `heapq` min-heap of the KD-tree query is modelled as a list kept sorted
  ascending w.r.t. the Python tuple order on `(ℝ × String)`; `heap[0]` is the
  head, `heappop` drops the head.  All observations the source makes of the
  heap (its minimum, its length, its final sorted contents) agree with this
  representation.
* `random.Random(seed).gauss` plane generation in the LSH index is stdlib
  code outside the repository; it is abstracted as an explicit
  plane-generation oracle argument (see `LSHIndexState`).
-/
import Mathlib

open scoped Classical

set_option maxHeartbeats 1600000

namespace VectorDB

/-! ### Vector math (src/app/vector_index/base.py) -/

/-- `dot(a, b) = sum(x * y for x, y in zip(a, b))`. -/
def dot (a b : List ℝ) : ℝ := ((a.zip b).map fun p => p.1 * p.2).sum

/-- `norm(a) = math.sqrt(sum(x * x for x in a))`. -/
noncomputable def norm (a : List ℝ) : ℝ := Real.sqrt ((a.map fun x => x * x).sum)

/-- `cosine_similarity(a, b)`: `0.0` when either norm is zero, else
`dot(a, b) / (norm(a) * norm(b))`. -/
noncomputable def cosine_similarity (a b : List ℝ) : ℝ :=
  if norm a = 0 ∨ norm b = 0 then 0 else dot a b / (norm a * norm b)

/-- `euclidean_distance(a, b) = math.sqrt(sum((x - y) ** 2 for x, y in zip(a, b)))`. -/
noncomputable def euclidean_distance (a b : List ℝ) : ℝ :=
  Real.sqrt (((a.zip b).map fun p => (p.1 - p.2) ^ 2).sum)

/-! ### Constants (src/app/core/constants.py) -/

def DEFAULT_SEARCH_MULTIPLIER : ℤ := 3
def MAX_SEARCH_BUFFER : ℤ := 50

/-- `IndexService._calculate_query_k`: `max(k, min(k * multiplier, k + buffer))`
with doubled multiplier and buffer when filters are present. -/
def calculate_query_k (k : ℤ) (has_filters : Bool) : ℤ :=
  let multiplier := if has_filters then DEFAULT_SEARCH_MULTIPLIER * 2
                    else DEFAULT_SEARCH_MULTIPLIER
  let buffer := if has_filters then MAX_SEARCH_BUFFER * 2 else MAX_SEARCH_BUFFER
  max k (min (k * multiplier) (k + buffer))

/-- The overfetch formula as the specification words it:
`query_k = min(max(k, k·m), k+b)`. -/
def specQueryK (k m b : ℤ) : ℤ := min (max k (k * m)) (k + b)

/-! ### Association lists: the model of Python dicts -/

/-- Dict lookup `d.get(k)`. -/
def alGet {α : Type} (l : List (String × α)) (k : String) : Option α :=
  match l with
  | [] => none
  | p :: t => if p.1 = k then some p.2 else alGet t k

/-- Dict assignment `d[k] = v`: replace in place when the key exists,
append otherwise (CPython insertion-order semantics). -/
def alInsert {α : Type} (l : List (String × α)) (k : String) (v : α) :
    List (String × α) :=
  match l with
  | [] => [(k, v)]
  | (k', v') :: t => if k' = k then (k, v) :: t else (k', v') :: alInsert t k v

/-- Dict deletion `d.pop(k, None)` / `del d[k]` (keys are unique). -/
def alErase {α : Type} (l : List (String × α)) (k : String) : List (String × α) :=
  l.filter fun p => p.1 ≠ k

/-- Dict `values()` view in insertion order. -/
def alValues {α : Type} (l : List (String × α)) : List α := l.map fun p => p.2

/-! ### Entities (src/app/domain/models/entities.py) -/

structure Library where
  id : String
  name : String
  description : Option String
  metadata : List (String × String)
  embedding_dim : Option ℕ
deriving Repr

structure Document where
  id : String
  library_id : String
  title : String
  description : Option String
  metadata : List (String × String)
deriving Repr

structure Chunk where
  id : String
  document_id : String
  text : String
  embedding : List ℝ
  metadata : List (String × String)

/-! ### Errors (src/app/core/exceptions.py); index-level `ValueError`s -/

/-- Service-level exceptions.  `dimensionMismatch` carries `(expected, got)`
like `DimensionalityMismatchException`. -/
inductive ServiceError where
  | notFound (resource_type : String) (resource_id : String)
  | dimensionMismatch (expected : ℕ) (got : ℕ)
  | invalidAlgorithm (algorithm : String)
  | invalidMetric (algorithm : String) (metric : String)
  | invalidInput (message : String)
deriving Repr, DecidableEq

/-- Failures of `VectorIndex.build` (`ValueError` in the source). -/
inductive BuildError where
  | invalidInput (message : String)
deriving Repr, DecidableEq

/-- Failures of `VectorIndex.query`: the single `ValueError` raised for a
query-vector dimensionality mismatch (the spec's `DimensionMismatch`). -/
inductive QueryError where
  | dimensionMismatch
deriving Repr, DecidableEq

/-! ### Store (src/app/repositories/memory.py)

Reader/writer locking is concurrency plumbing with no effect on the
sequential semantics modelled here; each locked block is one atomic
function on the store. -/

structure Store where
  libraries : List (String × Library)
  documents : List (String × Document)
  chunks : List (String × Chunk)

/-- `InMemoryRepository.create_library` (and `update_library`: same dict write). -/
def Store.create_library (s : Store) (lib : Library) : Store :=
  { s with libraries := alInsert s.libraries lib.id lib }

def Store.update_library (s : Store) (lib : Library) : Store :=
  { s with libraries := alInsert s.libraries lib.id lib }

def Store.get_library (s : Store) (library_id : String) : Option Library :=
  alGet s.libraries library_id

def Store.list_libraries (s : Store) : List Library := alValues s.libraries

/-- `delete_library`: collect the library's document ids, delete their chunks,
delete the documents, pop the library. -/
def Store.delete_library (s : Store) (library_id : String) : Store :=
  let doc_ids := ((alValues s.documents).filter
    fun d => d.library_id = library_id).map fun d => d.id
  let chunks_to_delete := ((alValues s.chunks).filter
    fun c => c.document_id ∈ doc_ids).map fun c => c.id
  { libraries := alErase s.libraries library_id
    documents := s.documents.filter fun p => p.1 ∉ doc_ids
    chunks := s.chunks.filter fun p => p.1 ∉ chunks_to_delete }

def Store.create_document (s : Store) (d : Document) : Store :=
  { s with documents := alInsert s.documents d.id d }

def Store.update_document (s : Store) (d : Document) : Store :=
  { s with documents := alInsert s.documents d.id d }

def Store.get_document (s : Store) (document_id : String) : Option Document :=
  alGet s.documents document_id

def Store.list_documents (s : Store) (library_id : String) : List Document :=
  (alValues s.documents).filter fun d => d.library_id = library_id

/-- `delete_document`: delete dependent chunks then the document. -/
def Store.delete_document (s : Store) (document_id : String) : Store :=
  let chunks_to_delete := ((alValues s.chunks).filter
    fun c => c.document_id = document_id).map fun c => c.id
  { s with
    documents := alErase s.documents document_id
    chunks := s.chunks.filter fun p => p.1 ∉ chunks_to_delete }

def Store.create_chunk (s : Store) (c : Chunk) : Store :=
  { s with chunks := alInsert s.chunks c.id c }

def Store.update_chunk (s : Store) (c : Chunk) : Store :=
  { s with chunks := alInsert s.chunks c.id c }

def Store.get_chunk (s : Store) (chunk_id : String) : Option Chunk :=
  alGet s.chunks chunk_id

/-- `list_chunks`: chunks whose document belongs to the library. -/
def Store.list_chunks (s : Store) (library_id : String) : List Chunk :=
  let doc_ids := ((alValues s.documents).filter
    fun d => d.library_id = library_id).map fun d => d.id
  (alValues s.chunks).filter fun c => c.document_id ∈ doc_ids

def Store.delete_chunk (s : Store) (chunk_id : String) : Store :=
  { s with chunks := alErase s.chunks chunk_id }

/-! ### Service facade (src/app/services/\*.py)

Each operation returns `(result, post-state)`; an error result carries the
state at raise time.  Freshly generated `uuid4` identifiers are modelled as
explicit caller-supplied arguments. -/

/-- `LibraryService.create_library` (identifier supplied as `new_id`). -/
def createLibrary (s : Store) (new_id name : String) (description : Option String)
    (metadata : List (String × String)) : Except ServiceError Library × Store :=
  let library : Library :=
    { id := new_id, name := name, description := description,
      metadata := metadata, embedding_dim := none }
  (.ok library, s.create_library library)

/-- `LibraryService.update_library`. -/
def updateLibrary (s : Store) (library_id : String) (name : Option String)
    (description : Option String) (metadata : Option (List (String × String))) :
    Except ServiceError Library × Store :=
  match s.get_library library_id with
  | none => (.error (.notFound "Library" library_id), s)
  | some library =>
    let library := match name with | some n => { library with name := n } | none => library
    let library := match description with
      | some d => { library with description := some d } | none => library
    let library := match metadata with
      | some m => { library with metadata := m } | none => library
    (.ok library, s.update_library library)

/-- `LibraryService.delete_library` (store effect; `delete_library_cascade`
additionally clears the registry entry, which does not touch the store). -/
def deleteLibrary (s : Store) (library_id : String) : Store :=
  s.delete_library library_id

/-- `DocumentService.create_document`: the library must exist. -/
def createDocument (s : Store) (new_id library_id title : String)
    (description : Option String) (metadata : List (String × String)) :
    Except ServiceError Document × Store :=
  match s.get_library library_id with
  | none => (.error (.notFound "Library" library_id), s)
  | some _ =>
    let document : Document :=
      { id := new_id, library_id := library_id, title := title,
        description := description, metadata := metadata }
    (.ok document, s.create_document document)

/-- `DocumentService.update_document`. -/
def updateDocument (s : Store) (document_id : String) (title : Option String)
    (description : Option String) (metadata : Option (List (String × String))) :
    Except ServiceError Document × Store :=
  match s.get_document document_id with
  | none => (.error (.notFound "Document" document_id), s)
  | some document =>
    let document := match title with | some t => { document with title := t } | none => document
    let document := match description with
      | some d => { document with description := some d } | none => document
    let document := match metadata with
      | some m => { document with metadata := m } | none => document
    (.ok document, s.update_document document)

def deleteDocument (s : Store) (document_id : String) : Store :=
  s.delete_document document_id

/-- `ChunkService._validate_embedding_dimensions`: empty embeddings and
missing libraries pass; a frozen `embedding_dim` must match, an unset one is
frozen to `len(embedding)` through `update_library`. -/
def validateEmbeddingDimensions (s : Store) (library_id : String)
    (embedding : List ℝ) : Except ServiceError Unit × Store :=
  match embedding with
  | [] => (.ok (), s)
  | _ :: _ =>
    match s.get_library library_id with
    | none => (.ok (), s)
    | some library =>
      match library.embedding_dim with
      | some expected =>
        if embedding.length ≠ expected then
          (.error (.dimensionMismatch expected embedding.length), s)
        else (.ok (), s)
      | none =>
        (.ok (), s.update_library { library with embedding_dim := some embedding.length })

/-- `ChunkService.create_chunk`: document existence and library cross-check,
dimension validation, then the chunk write. -/
def createChunk (s : Store) (new_id library_id document_id text : String)
    (embedding : List ℝ) (metadata : List (String × String)) :
    Except ServiceError Chunk × Store :=
  match s.get_document document_id with
  | none => (.error (.notFound "Document" document_id), s)
  | some document =>
    if document.library_id ≠ library_id then
      (.error (.notFound "Document" document_id), s)
    else
      match validateEmbeddingDimensions s library_id embedding with
      | (.error e, s') => (.error e, s')
      | (.ok _, s') =>
        let chunk : Chunk :=
          { id := new_id, document_id := document_id, text := text,
            embedding := embedding, metadata := metadata }
        (.ok chunk, s'.create_chunk chunk)

/-- `ChunkService.update_chunk`: validation of a new embedding happens before
any field of the stored chunk is assigned. -/
def updateChunk (s : Store) (chunk_id : String) (text : Option String)
    (embedding : Option (List ℝ)) (metadata : Option (List (String × String))) :
    Except ServiceError Chunk × Store :=
  match s.get_chunk chunk_id with
  | none => (.error (.notFound "Chunk" chunk_id), s)
  | some chunk =>
    let step : Except ServiceError (Chunk × Store) :=
      match embedding with
      | none => .ok (chunk, s)
      | some e =>
        match s.get_document chunk.document_id with
        | some document =>
          match validateEmbeddingDimensions s document.library_id e with
          | (.error er, _) => .error er
          | (.ok _, s') => .ok ({ chunk with embedding := e }, s')
        | none => .ok ({ chunk with embedding := e }, s)
    match step with
    | .error er => (.error er, s)
    | .ok (chunk, s') =>
      let chunk := match text with | some t => { chunk with text := t } | none => chunk
      let chunk := match metadata with
        | some m => { chunk with metadata := m } | none => chunk
      (.ok chunk, s'.update_chunk chunk)

def deleteChunk (s : Store) (chunk_id : String) : Store :=
  s.delete_chunk chunk_id

/-! ### Index contract plumbing (src/app/vector_index/base.py) -/

/-- `VectorIndex._validate_inputs`. -/
def validate_inputs (vectors : List (List ℝ)) (ids : List String) :
    Except BuildError Unit :=
  if vectors.length ≠ ids.length then
    .error (.invalidInput "Vectors and ids must have the same length")
  else if !vectors.isEmpty && vectors.any fun v => v.length != (vectors.headD []).length then
    .error (.invalidInput "All vectors must have the same dimensionality")
  else .ok ()

/-! ### Linear index (src/app/vector_index/linear.py) -/

structure LinearIndexState where
  metric : String
  vectors : List (List ℝ)
  ids : List String

/-- `LinearIndex.build` (the state after `__init__(metric)` + `build`). -/
def LinearIndex.build (metric : String) (vectors : List (List ℝ))
    (ids : List String) : Except BuildError LinearIndexState := do
  _ ← validate_inputs vectors ids
  .ok { metric := metric, vectors := vectors, ids := ids }

/-- Python `scores.sort(key=lambda x: x[1], reverse=True)`: a stable
descending sort on the score component. -/
noncomputable def sortByScoreDesc (scores : List (String × ℝ)) : List (String × ℝ) :=
  List.insertionSort (fun x y => y.2 ≤ x.2) scores

/-- `LinearIndex.query`. -/
noncomputable def LinearIndex.query (s : LinearIndexState) (vector : List ℝ)
    (k : ℤ) : Except QueryError (List (String × ℝ)) :=
  if s.vectors = [] ∨ k ≤ 0 then .ok []
  else if vector.length ≠ (s.vectors.headD []).length then .error .dimensionMismatch
  else
    let scores :=
      if s.metric = "cosine" then
        (s.ids.zip s.vectors).map fun p => (p.1, cosine_similarity vector p.2)
      else
        (s.ids.zip s.vectors).map fun p =>
          (p.1, 1 / (1 + euclidean_distance vector p.2))
    .ok ((sortByScoreDesc scores).take k.toNat)

/-! ### KD-tree index (src/app/vector_index/kdtree.py) -/

inductive KDNode where
  | nil : KDNode
  | node (point : List ℝ) (point_id : String) (axis : ℕ)
      (left : KDNode) (right : KDNode) : KDNode

/-- In-order list of `(point, id)` pairs stored in a subtree. -/
def KDNode.elems : KDNode → List (List ℝ × String)
  | .nil => []
  | .node p pid _ l r => l.elems ++ (p, pid) :: r.elems

/-- `build_kd`: sort by the cycling axis, take the median as the node,
recurse on the two halves.  Python's stable `list.sort` is modelled by
`List.insertionSort` (stable sorts agree element-for-element). -/
noncomputable def build_kd (points : List (List ℝ)) (ids : List String)
    (depth : ℕ) : KDNode :=
  match points with
  | [] => .nil
  | p0 :: rest =>
    let k := p0.length
    let axis := depth % k
    let combined := List.insertionSort
      (fun x y => x.1.getD axis 0 ≤ y.1.getD axis 0) ((p0 :: rest).zip ids)
    let median := combined.length / 2
    let m := combined.getD median ([], "")
    let leftc := combined.take median
    let rightc := combined.drop (median + 1)
    .node m.1 m.2 axis
      (build_kd (leftc.map fun x => x.1) (leftc.map fun x => x.2) (depth + 1))
      (build_kd (rightc.map fun x => x.1) (rightc.map fun x => x.2) (depth + 1))
termination_by points.length
decreasing_by
  all_goals simp only [List.length_map, List.length_take, List.length_drop,
    List.length_insertionSort, List.length_zip, List.length_cons]
  all_goals omega

/-- The Python tuple order on heap entries `(-distance, point_id)`. -/
def entryLe (a b : ℝ × String) : Prop :=
  a.1 < b.1 ∨ (a.1 = b.1 ∧ a.2 ≤ b.2)

/-- `heappush(heap, e)` followed by `if len(heap) > k: heappop(heap)`:
insert keeping the heap sorted ascending, then drop the minimum when the
bound is exceeded. -/
noncomputable def heapPush (k : ℤ) (e : ℝ × String) (heap : List (ℝ × String)) :
    List (ℝ × String) :=
  let h := List.orderedInsert entryLe e heap
  if (h.length : ℤ) > k then h.tail else h

/-- `kd_query`: bounded-heap nearest-neighbour descent.  The source selects
`first, second` from the sign of `diff`; the two symmetric branches are
written out so the recursion is structural. -/
noncomputable def kd_query (target : List ℝ) (k : ℤ) :
    KDNode → List (ℝ × String) → List (ℝ × String)
  | .nil, heap => heap
  | .node point pid axis l r, heap =>
    let dist := euclidean_distance target point
    let heap1 := heapPush k (-dist, pid) heap
    let diff := target.getD axis 0 - point.getD axis 0
    if diff < 0 then
      let heap2 := kd_query target k l heap1
      if (heap2.length : ℤ) < k ∨ |diff| < -(heap2.headD (0, "")).1 then
        kd_query target k r heap2
      else heap2
    else
      let heap2 := kd_query target k r heap1
      if (heap2.length : ℤ) < k ∨ |diff| < -(heap2.headD (0, "")).1 then
        kd_query target k l heap2
      else heap2

structure KDTreeIndexState where
  root : KDNode
  dim : ℕ

/-- `KDTreeIndex.build`. -/
noncomputable def KDTreeIndex.build (vectors : List (List ℝ))
    (ids : List String) : Except BuildError KDTreeIndexState := do
  _ ← validate_inputs vectors ids
  match vectors with
  | [] => .ok { root := .nil, dim := 0 }
  | v0 :: _ => .ok { root := build_kd vectors ids 0, dim := v0.length }

/-- `heap.sort(reverse=True)`: descending sort in the tuple order. -/
noncomputable def sortEntriesDesc (heap : List (ℝ × String)) : List (ℝ × String) :=
  List.insertionSort (fun a b => entryLe b a) heap

/-- `KDTreeIndex.query`: run `kd_query`, sort the heap descending, convert
`-d` to the similarity score `1.0 / (1.0 + d)`. -/
noncomputable def KDTreeIndex.query (s : KDTreeIndexState) (vector : List ℝ)
    (k : ℤ) : Except QueryError (List (String × ℝ)) :=
  if k ≤ 0 then .ok []
  else if s.dim ≠ 0 ∧ vector.length ≠ s.dim then .error .dimensionMismatch
  else
    let heap := kd_query vector k s.root []
    .ok ((sortEntriesDesc heap).map fun e => (e.2, 1 / (1 + -e.1)))

/-! ### LSH index (src/app/vector_index/lsh.py)

The per-table hyperplanes come from a seeded `random.Random` gaussian
generator (stdlib, outside the repository).  Modelled from the spec: plane
generation is a deterministic oracle `planeGen` mapping the built
dimensionality to the list of per-table plane lists; normalisation is part
of the oracle's output. -/

structure LSHIndexState where
  num_planes : ℕ
  num_tables : ℕ
  planes : List (List (List ℝ))
  tables : List (List (ℕ × List (String × List ℝ)))
  dim : ℕ

/-- `LSHIndex._hash`: bit `i` is set iff `dot(vec, plane_i) ≥ 0`. -/
noncomputable def lshHash (vec : List ℝ) (planes : List (List ℝ)) : ℕ :=
  planes.enum.foldl
    (fun signature p =>
      if 0 ≤ dot vec p.2 then signature ||| (1 <<< p.1) else signature) 0

/-- Bucket lookup: a missing signature behaves as an empty bucket. -/
def bucketGet (table : List (ℕ × List (String × List ℝ))) (sig : ℕ) :
    List (String × List ℝ) :=
  ((table.find? fun p => p.1 == sig).map fun p => p.2).getD []

/-- `self._tables[i][signature].append((vec_id, vec))`, creating the bucket
on first use. -/
def bucketAppend (table : List (ℕ × List (String × List ℝ))) (sig : ℕ)
    (entry : String × List ℝ) : List (ℕ × List (String × List ℝ)) :=
  match table with
  | [] => [(sig, [entry])]
  | (s', b) :: t =>
    if s' = sig then (s', b ++ [entry]) :: t else (s', b) :: bucketAppend t sig entry

/-- `LSHIndex.build`: hash every vector into every table. -/
noncomputable def LSHIndex.build (num_planes num_tables : ℕ)
    (planeGen : ℕ → List (List (List ℝ))) (vectors : List (List ℝ))
    (ids : List String) : Except BuildError LSHIndexState := do
  _ ← validate_inputs vectors ids
  match vectors with
  | [] => .ok { num_planes := num_planes, num_tables := num_tables,
                planes := [], tables := [], dim := 0 }
  | v0 :: _ =>
    let dim := v0.length
    let planes := planeGen dim
    let tables := (vectors.zip ids).foldl
      (fun tables p =>
        (planes.zip tables).map fun q => bucketAppend q.2 (lshHash p.1 q.1) (p.2, p.1))
      (planes.map fun _ => [])
    .ok { num_planes := num_planes, num_tables := num_tables,
          planes := planes, tables := tables, dim := dim }

/-- First-seen-wins candidate insertion (`if vec_id not in candidates`). -/
def candInsert (cand : List (String × List ℝ)) (entry : String × List ℝ) :
    List (String × List ℝ) :=
  if (cand.find? fun p => p.1 == entry.1).isSome then cand else cand ++ [entry]

/-- `LSHIndex.query`: collect bucket occupants per table with two one-bit
multi-probes, score candidates by cosine similarity, sort, truncate. -/
noncomputable def LSHIndex.query (s : LSHIndexState) (vector : List ℝ)
    (k : ℤ) : Except QueryError (List (String × ℝ)) :=
  if k ≤ 0 then .ok []
  else if s.dim ≠ 0 ∧ vector.length ≠ s.dim then .error .dimensionMismatch
  else
    let candidates := (s.planes.zip s.tables).foldl
      (fun cand q =>
        let signature := lshHash vector q.1
        let cand := (bucketGet q.2 signature).foldl candInsert cand
        (List.range (min 2 s.num_planes)).foldl
          (fun cand bit_flip =>
            (bucketGet q.2 (signature ^^^ (1 <<< bit_flip))).foldl candInsert cand)
          cand)
      []
    let scores := candidates.map fun p => (p.1, cosine_similarity vector p.2)
    .ok ((sortByScoreDesc scores).take k.toNat)

/-! ### Index registry and search (src/app/services/index_service.py) -/

/-- The built index installed for a library, as a tagged variant. -/
inductive BuiltIndex where
  | linear (s : LinearIndexState)
  | kdtree (s : KDTreeIndexState)
  | lsh (s : LSHIndexState)

def BuiltIndex.kind : BuiltIndex → String
  | .linear _ => "linear"
  | .kdtree _ => "kdtree"
  | .lsh _ => "lsh"

def BuiltIndex.metricName : BuiltIndex → String
  | .linear s => s.metric
  | .kdtree _ => "euclidean"
  | .lsh _ => "cosine"

noncomputable def BuiltIndex.query (idx : BuiltIndex) (vector : List ℝ) (k : ℤ) :
    Except QueryError (List (String × ℝ)) :=
  match idx with
  | .linear s => LinearIndex.query s vector k
  | .kdtree s => KDTreeIndex.query s vector k
  | .lsh s => LSHIndex.query s vector k

/-- Registry state: `IndexService._indices` and `IndexService._index_meta`
(metadata as an `(algorithm, metric)` pair). -/
structure Registry where
  indices : List (String × BuiltIndex)
  meta : List (String × (String × String))

structure SystemState where
  store : Store
  registry : Registry

/-- Process-wide configuration defaults (src/app/core/config.py). -/
def default_metric : String := "cosine"
def default_lsh_num_planes : ℕ := 16
def default_lsh_num_tables : ℕ := 4

/-- `IndexService._create_index` validation table (`ALGORITHM_METRICS`). -/
def validMetricsFor (algorithm : String) : List String :=
  if algorithm = "linear" then ["cosine", "euclidean"]
  else if algorithm = "kdtree" then ["euclidean"]
  else if algorithm = "lsh" then ["cosine"]
  else []

/-- `IndexService._create_index` followed by `index.build(vectors, ids)`:
validate the algorithm, the metric and their compatibility, then build. -/
noncomputable def createAndBuildIndex (planeGen : ℕ → List (List (List ℝ)))
    (algorithm metric : String) (vectors : List (List ℝ)) (ids : List String) :
    Except ServiceError BuiltIndex :=
  if algorithm ∉ ["linear", "kdtree", "lsh"] then .error (.invalidAlgorithm algorithm)
  else if metric ∉ ["cosine", "euclidean"] then .error (.invalidMetric algorithm metric)
  else if metric ∉ validMetricsFor algorithm then .error (.invalidMetric algorithm metric)
  else if algorithm = "linear" then
    match LinearIndex.build metric vectors ids with
    | .error (.invalidInput m) => .error (.invalidInput m)
    | .ok s => .ok (.linear s)
  else if algorithm = "kdtree" then
    match KDTreeIndex.build vectors ids with
    | .error (.invalidInput m) => .error (.invalidInput m)
    | .ok s => .ok (.kdtree s)
  else
    match LSHIndex.build default_lsh_num_planes default_lsh_num_tables
        planeGen vectors ids with
    | .error (.invalidInput m) => .error (.invalidInput m)
    | .ok s => .ok (.lsh s)

/-- The `(c.embedding, c.id)` pairs of the chunks with non-empty embeddings
(`valid_pairs` in `build_index` and `_get_or_create_index`). -/
def validPairs (chunks : List Chunk) : List (List ℝ × String) :=
  (chunks.filter fun c => ¬c.embedding.isEmpty).map fun c => (c.embedding, c.id)

/-- `str.lower()`, written over the character list so that it evaluates
(`String.toLower` itself is definitionally opaque in Lean). -/
def strLower (s : String) : String := ⟨s.data.map Char.toLower⟩

/-- `IndexService.build_index`: build outside the lock, then install the
index and its `{algorithm, metric}` metadata.  `algorithm.lower()` and
`metric.lower()` are applied first. -/
noncomputable def buildIndexOp (planeGen : ℕ → List (List (List ℝ)))
    (sys : SystemState) (library_id algorithm metric : String) :
    Except ServiceError Unit × SystemState :=
  let algorithm := strLower algorithm
  let metric := strLower metric
  let chunks := sys.store.list_chunks library_id
  let pairs := if chunks.isEmpty then [] else validPairs chunks
  match createAndBuildIndex planeGen algorithm metric
      (pairs.map fun p => p.1) (pairs.map fun p => p.2) with
  | .error e => (.error e, sys)
  | .ok index =>
    (.ok (), { sys with registry :=
      { indices := alInsert sys.registry.indices library_id index
        meta := alInsert sys.registry.meta library_id
          (index.kind, index.metricName) } })

/-- `IndexService.clear_index`. -/
def clearIndexOp (sys : SystemState) (library_id : String) : SystemState :=
  { sys with registry :=
    { indices := alErase sys.registry.indices library_id
      meta := alErase sys.registry.meta library_id } }

/-- `IndexService.rebuild_indices`: iterate the saved metadata and
`build_index` each entry, logging and continuing on failure. -/
noncomputable def rebuildIndices (planeGen : ℕ → List (List (List ℝ)))
    (metadata : List (String × (String × String))) (sys : SystemState) :
    SystemState :=
  metadata.foldl
    (fun sys entry => (buildIndexOp planeGen sys entry.1 entry.2.1 entry.2.2).2)
    sys

/-- `IndexService._get_or_create_index`: return the installed index, or
lazily build and cache a linear fallback with the default metric; `none`
models the Python `None` return for an empty library.  A failing fallback
build (only possible for a library whose stored embeddings have mixed
lengths, which the facade's dimension rule excludes) is folded into the
absent-index path. -/
noncomputable def getOrCreateIndex (sys : SystemState) (library_id : String) :
    Option BuiltIndex × SystemState :=
  match alGet sys.registry.indices library_id with
  | some index => (some index, sys)
  | none =>
    let chunks := sys.store.list_chunks library_id
    if chunks.isEmpty then (none, sys)
    else
      let pairs := validPairs chunks
      if pairs.isEmpty then (none, sys)
      else
        match LinearIndex.build default_metric (pairs.map fun p => p.1)
            (pairs.map fun p => p.2) with
        | .error _ => (none, sys)
        | .ok s =>
          let index := BuiltIndex.linear s
          (some index, { sys with registry :=
            { indices := alInsert sys.registry.indices library_id index
              meta := alInsert sys.registry.meta library_id
                (index.kind, index.metricName) } })

/-- `IndexService._apply_metadata_filters`: keep results whose chunk still
exists and whose metadata contains every filter pair exactly. -/
def applyMetadataFilters (s : Store) (results : List (String × ℝ))
    (filters : List (String × String)) : List (String × ℝ) :=
  results.filter fun r =>
    match s.get_chunk r.1 with
    | none => false
    | some chunk => filters.all fun f => alGet chunk.metadata f.1 == some f.2

/-- `IndexService.search`: `k ≤ 0` short-circuit, index acquisition with
lazy fallback, overfetch, query, optional metadata filtering, truncation.
`metadata_filters = []` models Python `None`/`{}` (both falsy). -/
noncomputable def searchOp (sys : SystemState) (library_id : String)
    (vector : List ℝ) (k : ℤ) (metadata_filters : List (String × String)) :
    Except QueryError (List (String × ℝ)) × SystemState :=
  if k ≤ 0 then (.ok [], sys)
  else
    match getOrCreateIndex sys library_id with
    | (none, sys') => (.ok [], sys')
    | (some index, sys') =>
      let query_k := calculate_query_k k (!metadata_filters.isEmpty)
      match index.query vector query_k with
      | .error e => (.error e, sys')
      | .ok results =>
        let results :=
          if metadata_filters.isEmpty then results
          else applyMetadataFilters sys'.store results metadata_filters
        (.ok (results.take k.toNat), sys')

/-! ### Snapshot engine (src/app/services/snapshot_service.py)

File I/O and `json` serialisation are stdlib effects outside the
repository; `save` is modelled down to the in-memory snapshot payload and
`load` consumes either that payload (the data-level round trip) or an
abstract file state (existence plus a parse outcome) for the error
boundary. -/

/-- The snapshot payload: the store tables from `InMemoryRepository.snapshot`
plus `IndexService.get_index_metadata` (the `timestamp` field carries no
state and is omitted). -/
structure SnapshotData where
  libraries : List Library
  documents : List Document
  chunks : List Chunk
  indices : List (String × (String × String))

/-- `SnapshotService.save`: assemble the payload from the live state. -/
def saveSnapshot (sys : SystemState) : SnapshotData :=
  { libraries := alValues sys.store.libraries
    documents := alValues sys.store.documents
    chunks := alValues sys.store.chunks
    indices := sys.registry.meta }

/-- `InMemoryRepository.load_snapshot`: rebuild the three tables wholesale
as `{entity["id"]: Entity(**entity)}` comprehensions. -/
def loadStoreSnapshot (data : SnapshotData) : Store :=
  { libraries := data.libraries.foldl (fun t lib => alInsert t lib.id lib) []
    documents := data.documents.foldl (fun t d => alInsert t d.id d) []
    chunks := data.chunks.foldl (fun t c => alInsert t c.id c) [] }

/-- `SnapshotService.load` body after a successful parse: replace the store,
then rebuild the indices from the stored metadata. -/
noncomputable def applyLoad (planeGen : ℕ → List (List (List ℝ)))
    (data : SnapshotData) (sys : SystemState) : SystemState :=
  rebuildIndices planeGen data.indices
    { sys with store := loadStoreSnapshot data }

/-- An abstract parse outcome for the snapshot file (`json.loads`). -/
inductive ParseOutcome where
  | failure
  | success (data : SnapshotData)

/-- `SnapshotService.load`: a missing file is a logged no-op; the parse is
staged before any table is replaced, so a parse failure propagates with the
state untouched.  `file` is `none` when `path.exists()` is false, otherwise
the parse outcome of the file's text. -/
noncomputable def loadSnapshotFile (planeGen : ℕ → List (List (List ℝ)))
    (file : Option ParseOutcome) (sys : SystemState) :
    Option Unit × SystemState :=
  match file with
  | none => (some (), sys)
  | some .failure => (none, sys)
  | some (.success data) => (some (), applyLoad planeGen data sys)

/-! ### Spec-side definitions (for refinement claims) -/

/-- Brute-force Euclidean top-k over a point set, as the specification words
it: sort the `(point, id)` pairs by distance to the query ascending (stable),
take the first `k`, return the ids. -/
noncomputable def bruteForceTopK (points : List (List ℝ)) (ids : List String)
    (target : List ℝ) (k : ℤ) : List String :=
  ((List.insertionSort
      (fun a b => euclidean_distance target a.1 ≤ euclidean_distance target b.1)
      (points.zip ids)).take k.toNat).map fun a => a.2

/-- The heap entries `(-distance, id)` that a query against `target` pushes
for the nodes of a subtree (in-order). -/
noncomputable def KDNode.pushes (t : KDNode) (target : List ℝ) :
    List (ℝ × String) :=
  t.elems.map fun a => (-euclidean_distance target a.1, a.2)

/-- The coordinate-partition invariant `build_kd` establishes: left points
sit at or below the node's coordinate on the split axis, right points at or
above. -/
def KDNode.Inv : KDNode → Prop
  | .nil => True
  | .node p _ ax l r =>
      (∀ q ∈ l.elems, q.1.getD ax 0 ≤ p.getD ax 0) ∧
      (∀ q ∈ r.elems, p.getD ax 0 ≤ q.1.getD ax 0) ∧ l.Inv ∧ r.Inv

/-- Dimension well-formedness: every stored point has length `D` and every
split axis is below `D`. -/
def KDNode.WFdim (D : ℕ) : KDNode → Prop
  | .nil => True
  | .node p _ ax l r => p.length = D ∧ ax < D ∧ l.WFdim D ∧ r.WFdim D

/-! ### Invariants and reachability (for the claims about the data model) -/

/-- Referential integrity: every document's `library_id` names an existing
library, every chunk's `document_id` names an existing document. -/
def IntegrityOk (s : Store) : Prop :=
  (∀ d ∈ alValues s.documents, (s.get_library d.library_id).isSome) ∧
  (∀ c ∈ alValues s.chunks, (s.get_document c.document_id).isSome)

/-- Dict well-formedness of the three tables: every entry is keyed by its
entity's id and keys are unique (true by construction of the Python dicts,
which are only written at the entity's own id). -/
def StoreWF (s : Store) : Prop :=
  (∀ p ∈ s.libraries, p.2.id = p.1) ∧ (s.libraries.map Prod.fst).Nodup ∧
  (∀ p ∈ s.documents, p.2.id = p.1) ∧ (s.documents.map Prod.fst).Nodup ∧
  (∀ p ∈ s.chunks, p.2.id = p.1) ∧ (s.chunks.map Prod.fst).Nodup

/-- Store states reachable through the service facade: the empty store
closed under every service-level create/update/delete (gets are pure and
`delete_library_cascade` has the same store effect as `delete_library`;
its extra step only clears the registry). -/
inductive ReachableStore : Store → Prop
  | empty : ReachableStore ⟨[], [], []⟩
  | create_library (s : Store) (new_id name : String) (description : Option String)
      (metadata : List (String × String)) : ReachableStore s →
      ReachableStore (createLibrary s new_id name description metadata).2
  | update_library (s : Store) (library_id : String) (name description : Option String)
      (metadata : Option (List (String × String))) : ReachableStore s →
      ReachableStore (updateLibrary s library_id name description metadata).2
  | delete_library (s : Store) (library_id : String) : ReachableStore s →
      ReachableStore (deleteLibrary s library_id)
  | create_document (s : Store) (new_id library_id title : String)
      (description : Option String) (metadata : List (String × String)) :
      ReachableStore s →
      ReachableStore (createDocument s new_id library_id title description metadata).2
  | update_document (s : Store) (document_id : String) (title description : Option String)
      (metadata : Option (List (String × String))) : ReachableStore s →
      ReachableStore (updateDocument s document_id title description metadata).2
  | delete_document (s : Store) (document_id : String) : ReachableStore s →
      ReachableStore (deleteDocument s document_id)
  | create_chunk (s : Store) (new_id library_id document_id text : String)
      (embedding : List ℝ) (metadata : List (String × String)) : ReachableStore s →
      ReachableStore (createChunk s new_id library_id document_id text embedding metadata).2
  | update_chunk (s : Store) (chunk_id : String) (text : Option String)
      (embedding : Option (List ℝ)) (metadata : Option (List (String × String))) :
      ReachableStore s →
      ReachableStore (updateChunk s chunk_id text embedding metadata).2
  | delete_chunk (s : Store) (chunk_id : String) : ReachableStore s →
      ReachableStore (deleteChunk s chunk_id)

/-- Per-library dimensional consistency: any two stored chunks of one
library with non-empty embeddings have embeddings of the same length
(spec invariant 3, maintained by the facade's dimension rule). -/
def LibraryDimsConsistent (s : Store) : Prop :=
  ∀ library_id : String, ∀ c1 ∈ s.list_chunks library_id,
    ∀ c2 ∈ s.list_chunks library_id,
      ¬c1.embedding.isEmpty → ¬c2.embedding.isEmpty →
        c1.embedding.length = c2.embedding.length

/-- Registry metadata sanity: every recorded `(algorithm, metric)` pair is
one the registry itself can produce (`index.kind()` × `index.metric()`). -/
def MetaValid (meta : List (String × (String × String))) : Prop :=
  ∀ p ∈ meta, p.2 ∈ [("linear", "cosine"), ("linear", "euclidean"),
    ("kdtree", "euclidean"), ("lsh", "cosine")]

/-! ### Order instances for the sorts used by the indices -/

instance : IsTotal (String × ℝ) fun x y => y.2 ≤ x.2 :=
  ⟨fun a b => (le_total b.2 a.2).imp id id⟩

instance : IsTrans (String × ℝ) fun x y => y.2 ≤ x.2 :=
  ⟨fun _ _ _ h1 h2 => le_trans h2 h1⟩

instance : IsTotal (ℝ × String) entryLe :=
  ⟨fun a b => by
    rcases lt_trichotomy a.1 b.1 with h | h | h
    · exact Or.inl (Or.inl h)
    · rcases le_total a.2 b.2 with h2 | h2
      · exact Or.inl (Or.inr ⟨h, h2⟩)
      · exact Or.inr (Or.inr ⟨h.symm, h2⟩)
    · exact Or.inr (Or.inl h)⟩

instance : IsTrans (ℝ × String) entryLe :=
  ⟨fun a b c h1 h2 => by
    rcases h1 with h1 | ⟨e1, s1⟩
    · rcases h2 with h2 | ⟨e2, s2⟩
      · exact Or.inl (h1.trans h2)
      · exact Or.inl (e2 ▸ h1)
    · rcases h2 with h2 | ⟨e2, s2⟩
      · exact Or.inl (e1 ▸ h2)
      · exact Or.inr ⟨e1.trans e2, s1.trans s2⟩⟩

instance : IsTotal (ℝ × String) fun a b => entryLe b a :=
  ⟨fun a b => (total_of entryLe b a).imp id id⟩

instance : IsTrans (ℝ × String) fun a b => entryLe b a :=
  ⟨fun _ _ _ h1 h2 => Trans.trans h2 h1⟩

instance (ax : ℕ) :
    IsTotal (List ℝ × String) fun x y => x.1.getD ax 0 ≤ y.1.getD ax 0 :=
  ⟨fun _ _ => le_total _ _⟩

instance (ax : ℕ) :
    IsTrans (List ℝ × String) fun x y => x.1.getD ax 0 ≤ y.1.getD ax 0 :=
  ⟨fun _ _ _ => le_trans⟩

instance (target : List ℝ) :
    IsTotal (List ℝ × String) fun a b =>
      euclidean_distance target a.1 ≤ euclidean_distance target b.1 :=
  ⟨fun _ _ => le_total _ _⟩

instance (target : List ℝ) :
    IsTrans (List ℝ × String) fun a b =>
      euclidean_distance target a.1 ≤ euclidean_distance target b.1 :=
  ⟨fun _ _ _ => le_trans⟩

theorem entryLe_refl (a : ℝ × String) : entryLe a a := Or.inr ⟨rfl, le_refl _⟩

theorem entryLe_total (a b : ℝ × String) : entryLe a b ∨ entryLe b a :=
  total_of entryLe a b

theorem entryLe_trans {a b c : ℝ × String} (h1 : entryLe a b) (h2 : entryLe b c) :
    entryLe a c :=
  Trans.trans h1 h2

/-- Totality of any real-key comparison relation (for `letI` at sort
reasoning sites). -/
theorem keyLe_isTotal {α : Type} (f : α → ℝ) : IsTotal α fun a b => f a ≤ f b :=
  ⟨fun _ _ => le_total _ _⟩

theorem keyLe_isTrans {α : Type} (f : α → ℝ) : IsTrans α fun a b => f a ≤ f b :=
  ⟨fun _ _ _ h1 h2 => le_trans h1 h2⟩

/-! ## Association-list lemmas -/

theorem alGet_alInsert_self {α : Type} (l : List (String × α)) (k : String) (v : α) :
    alGet (alInsert l k v) k = some v := by
  induction l with
  | nil => simp [alInsert, alGet]
  | cons p t ih =>
    by_cases h : p.1 = k
    · simp [alInsert, h, alGet]
    · simpa [alInsert, h, alGet] using ih

theorem alGet_alInsert_ne {α : Type} (l : List (String × α)) (k : String) (v : α)
    (k' : String) (h : k' ≠ k) : alGet (alInsert l k v) k' = alGet l k' := by
  induction l with
  | nil => simp [alInsert, alGet, Ne.symm h]
  | cons p t ih =>
    by_cases hp : p.1 = k
    · simp [alInsert, hp, alGet, Ne.symm h, hp ▸ Ne.symm h]
    · by_cases hp' : p.1 = k'
      · simp [alInsert, hp, alGet, hp', h]
      · simpa [alInsert, hp, alGet, hp'] using ih

theorem mem_alInsert {α : Type} {p : String × α} {l : List (String × α)}
    {k : String} {v : α} (h : p ∈ alInsert l k v) : p = (k, v) ∨ p ∈ l := by
  induction l with
  | nil => simpa [alInsert] using h
  | cons q t ih =>
    by_cases hq : q.1 = k
    · rcases (by simpa [alInsert, hq] using h : p = (k, v) ∨ p ∈ t) with h1 | h1
      · exact Or.inl h1
      · exact Or.inr (List.mem_cons_of_mem _ h1)
    · rcases (by simpa [alInsert, hq] using h : p = q ∨ p ∈ alInsert t k v) with h1 | h1
      · exact Or.inr (h1 ▸ List.mem_cons_self _ _)
      · exact (ih h1).imp id (List.mem_cons_of_mem _)

theorem keys_alInsert_nodup {α : Type} {l : List (String × α)} (k : String) (v : α)
    (h : (l.map Prod.fst).Nodup) : ((alInsert l k v).map Prod.fst).Nodup := by
  induction l with
  | nil => simp [alInsert]
  | cons q t ih =>
    by_cases hq : q.1 = k
    · simp only [alInsert, hq, if_true, List.map_cons, List.nodup_cons] at h ⊢
      exact ⟨hq ▸ h.1, h.2⟩
    · simp only [alInsert, hq, if_false, List.map_cons, List.nodup_cons] at h ⊢
      refine ⟨fun hmem => ?_, ih h.2⟩
      rcases List.mem_map.1 hmem with ⟨p, hp, hfst⟩
      rcases mem_alInsert hp with h1 | h1
      · exact hq (by rw [← hfst, h1])
      · exact h.1 (List.mem_map.2 ⟨p, h1, hfst⟩)

theorem alGet_isSome_iff {α : Type} (l : List (String × α)) (k : String) :
    (alGet l k).isSome ↔ k ∈ l.map Prod.fst := by
  induction l with
  | nil => simp [alGet]
  | cons p t ih =>
    by_cases hp : p.1 = k
    · simp [alGet, hp]
    · simpa [alGet, hp, Ne.symm hp] using ih

theorem alGet_mem {α : Type} {l : List (String × α)} {k : String} {v : α}
    (h : alGet l k = some v) : (k, v) ∈ l := by
  induction l with
  | nil => simp [alGet] at h
  | cons p t ih =>
    by_cases hp : p.1 = k
    · have h2 : p.2 = v := by simpa [alGet, hp] using h
      have hpv : p = (k, v) := by
        calc p = (p.1, p.2) := rfl
          _ = (k, v) := by rw [hp, h2]
      rw [← hpv]
      exact List.mem_cons_self _ _
    · exact List.mem_cons_of_mem _ (ih (by simpa [alGet, hp] using h))

theorem mem_alErase {α : Type} {p : String × α} {l : List (String × α)}
    {k : String} (h : p ∈ alErase l k) : p ∈ l ∧ p.1 ≠ k := by
  have := List.mem_filter.1 h
  exact ⟨this.1, by simpa using this.2⟩

theorem alGet_filter_isSome {α : Type} {l : List (String × α)} {k : String}
    (q : String × α → Bool) (h : (alGet (l.filter q) k).isSome) :
    (alGet l k).isSome := by
  rw [alGet_isSome_iff] at h ⊢
  rcases List.mem_map.1 h with ⟨p, hp, hk⟩
  exact List.mem_map.2 ⟨p, (List.mem_filter.1 hp).1, hk⟩

theorem keys_filter_nodup {α : Type} {l : List (String × α)} (q : String × α → Bool)
    (h : (l.map Prod.fst).Nodup) : ((l.filter q).map Prod.fst).Nodup := by
  induction l with
  | nil => simp
  | cons p t ih =>
    simp only [List.map_cons, List.nodup_cons] at h
    by_cases hq : q p
    · simp only [List.filter_cons, hq, if_true, List.map_cons, List.nodup_cons]
      refine ⟨fun hmem => ?_, ih h.2⟩
      rcases List.mem_map.1 hmem with ⟨r, hr, hfst⟩
      exact h.1 (List.mem_map.2 ⟨r, (List.mem_filter.1 hr).1, hfst⟩)
    · simpa [List.filter_cons, hq] using ih h.2

/-- Pairwise-zip truncation: `zip` only sees the common prefix. -/
theorem zip_eq_zip_take_min {α β : Type} :
    ∀ (a : List α) (b : List β),
      a.zip b = (a.take (min a.length b.length)).zip (b.take (min a.length b.length))
  | [], _ => by simp
  | _ :: _, [] => by simp
  | x :: xs, y :: ys => by
    simpa [Nat.succ_min_succ] using zip_eq_zip_take_min xs ys

/-! ## C9: the overfetch size formula -/

/-- C9: for every `k > 0`, the overfetch size used by registry search equals
`min(max(k, k·m), k+b)` with `(m, b) = (3, 50)` without filters and
`(6, 100)` with filters; the code's `max(k, min(k·multiplier, k+buffer))`
computes the same value. -/
theorem calculate_query_k_eq_spec (k : ℤ) (hk : 0 < k) :
    calculate_query_k k false = specQueryK k 3 50 ∧
    calculate_query_k k true = specQueryK k 6 100 := by
  unfold calculate_query_k specQueryK DEFAULT_SEARCH_MULTIPLIER MAX_SEARCH_BUFFER
  simp only [Bool.false_eq_true, if_false, if_true]
  omega

theorem calculate_query_k_eq_spec_witness :
    0 < (7 : ℤ) ∧ (calculate_query_k 7 false = specQueryK 7 3 50 ∧
      calculate_query_k 7 true = specQueryK 7 6 100) :=
  ⟨by norm_num, calculate_query_k_eq_spec 7 (by norm_num)⟩

/-! ## C5: the vector-math helpers and length mismatch -/

/-- C5 counterexample: on the length-mismatched pair `a = [1, 2]`,
`b = [1]`, all three helpers return ordinary values computed from the
zipped common prefix — none fails.  In particular
`euclidean_distance([1,2],[1]) = 0` although the vectors differ. -/
theorem vector_math_no_mismatch_failure :
    ([(1 : ℝ), 2].length ≠ [(1 : ℝ)].length) ∧
    dot [1, 2] [1] = 1 ∧
    euclidean_distance [1, 2] [1] = 0 ∧
    cosine_similarity [1, 2] [1] = 1 / Real.sqrt 5 := by
  refine ⟨by simp, ?_, ?_, ?_⟩
  · simp [dot, List.zip]
  · simp [euclidean_distance, List.zip]
  · have h5 : ((0 : ℝ)) ≤ 5 := by norm_num
    have hna : norm [(1 : ℝ), 2] = Real.sqrt 5 := by
      simp [norm]
      norm_num
    have hnb : norm [(1 : ℝ)] = 1 := by
      simp [norm]
    have hne : Real.sqrt 5 ≠ 0 := by
      have : (0 : ℝ) < Real.sqrt 5 := Real.sqrt_pos.2 (by norm_num)
      exact ne_of_gt this
    rw [cosine_similarity, hna, hnb]
    rw [if_neg (by push_neg; exact ⟨hne, one_ne_zero⟩)]
    simp [dot, List.zip]

/-- C5 amended: when `len(a) ≠ len(b)`, `dot`, `cosine` and `euclid` do not
fail; they return the value computed over the zipped common prefix of
length `min(len(a), len(b))` (with `cosine` still dividing by the
full-length norms). -/
theorem vector_math_mismatch_truncates (a b : List ℝ)
    (hlen : a.length ≠ b.length) :
    dot a b = dot (a.take (min a.length b.length)) (b.take (min a.length b.length)) ∧
    euclidean_distance a b =
      euclidean_distance (a.take (min a.length b.length)) (b.take (min a.length b.length)) ∧
    cosine_similarity a b = (if norm a = 0 ∨ norm b = 0 then 0 else
      dot (a.take (min a.length b.length)) (b.take (min a.length b.length)) /
        (norm a * norm b)) := by
  have hz := zip_eq_zip_take_min a b
  have hdot : dot a b =
      dot (a.take (min a.length b.length)) (b.take (min a.length b.length)) := by
    rw [dot, dot, ← hz]
  refine ⟨hdot, ?_, ?_⟩
  · rw [euclidean_distance, euclidean_distance, ← hz]
  · rw [cosine_similarity, hdot]

theorem vector_math_mismatch_truncates_witness :
    ([(1 : ℝ), 2].length ≠ [(1 : ℝ)].length) ∧
    (dot [(1 : ℝ), 2] [1] =
        dot ([(1 : ℝ), 2].take (min [(1 : ℝ), 2].length [(1 : ℝ)].length))
          ([(1 : ℝ)].take (min [(1 : ℝ), 2].length [(1 : ℝ)].length)) ∧
      euclidean_distance [(1 : ℝ), 2] [1] =
        euclidean_distance ([(1 : ℝ), 2].take (min [(1 : ℝ), 2].length [(1 : ℝ)].length))
          ([(1 : ℝ)].take (min [(1 : ℝ), 2].length [(1 : ℝ)].length)) ∧
      cosine_similarity [(1 : ℝ), 2] [1] =
        (if norm [(1 : ℝ), 2] = 0 ∨ norm [(1 : ℝ)] = 0 then 0 else
          dot ([(1 : ℝ), 2].take (min [(1 : ℝ), 2].length [(1 : ℝ)].length))
            ([(1 : ℝ)].take (min [(1 : ℝ), 2].length [(1 : ℝ)].length)) /
            (norm [(1 : ℝ), 2] * norm [(1 : ℝ)]))) :=
  ⟨by simp, vector_math_mismatch_truncates [1, 2] [1] (by simp)⟩

/-! ## C8: snapshot load totality and atomicity -/

/-- C8: `load` with a missing default file succeeds and leaves the state
unchanged, and a parse failure propagates with the store's tables exactly
as they were (the parse is staged before any table is replaced). -/
theorem load_missing_noop_parse_failure_atomic
    (planeGen : ℕ → List (List (List ℝ))) (sys : SystemState) :
    loadSnapshotFile planeGen none sys = (some (), sys) ∧
    loadSnapshotFile planeGen (some .failure) sys = (none, sys) := by
  exact ⟨rfl, rfl⟩

/-! ## C3: embedding-dimension enforcement on chunk create/update -/

/-- C3: for a chunk create or update with a non-empty embedding under an
existing library: an unset `embedding_dim` is frozen to `len(embedding)`;
a set one that differs fails with `DimensionMismatch(expected, got)` leaving
the store untouched; a matching one succeeds with the library table (hence
`embedding_dim`) unchanged. -/
theorem chunk_dimension_enforcement :
    (∀ (s : Store) (new_id library_id document_id text : String)
       (emb : List ℝ) (metadata : List (String × String)) (doc : Document) (L : Library),
       s.get_document document_id = some doc →
       doc.library_id = library_id →
       s.get_library library_id = some L →
       L.id = library_id →
       emb ≠ [] →
       ((L.embedding_dim = none →
          ∃ ch st, createChunk s new_id library_id document_id text emb metadata
              = (.ok ch, st) ∧
            st.get_library library_id = some { L with embedding_dim := some emb.length }) ∧
        (∀ d, L.embedding_dim = some d → emb.length ≠ d →
          createChunk s new_id library_id document_id text emb metadata
            = (.error (.dimensionMismatch d emb.length), s)) ∧
        (∀ d, L.embedding_dim = some d → emb.length = d →
          ∃ ch st, createChunk s new_id library_id document_id text emb metadata
              = (.ok ch, st) ∧ st.libraries = s.libraries))) ∧
    (∀ (s : Store) (chunk_id : String) (tOpt : Option String)
       (emb : List ℝ) (mOpt : Option (List (String × String)))
       (c : Chunk) (doc : Document) (L : Library),
       s.get_chunk chunk_id = some c →
       s.get_document c.document_id = some doc →
       s.get_library doc.library_id = some L →
       L.id = doc.library_id →
       emb ≠ [] →
       ((L.embedding_dim = none →
          ∃ ch st, updateChunk s chunk_id tOpt (some emb) mOpt = (.ok ch, st) ∧
            st.get_library doc.library_id
              = some { L with embedding_dim := some emb.length }) ∧
        (∀ d, L.embedding_dim = some d → emb.length ≠ d →
          updateChunk s chunk_id tOpt (some emb) mOpt
            = (.error (.dimensionMismatch d emb.length), s)) ∧
        (∀ d, L.embedding_dim = some d → emb.length = d →
          ∃ ch st, updateChunk s chunk_id tOpt (some emb) mOpt = (.ok ch, st) ∧
            st.libraries = s.libraries))) := by
  constructor
  · intro s new_id library_id document_id text emb metadata doc L
      hdoc hdl hlib hLid hemb
    rcases List.exists_cons_of_ne_nil hemb with ⟨e0, erest, rfl⟩
    refine ⟨?_, ?_, ?_⟩
    · intro hdim
      simp only [createChunk, hdoc, hdl, ne_eq, not_true_eq_false, if_false,
        validateEmbeddingDimensions, hlib, hdim]
      refine ⟨_, _, rfl, ?_⟩
      simp only [Store.create_chunk, Store.update_library, Store.get_library, hLid]
      exact alGet_alInsert_self _ _ _
    · intro d hdim hne
      simp only [createChunk, hdoc, hdl, ne_eq, not_true_eq_false, if_false,
        validateEmbeddingDimensions, hlib, hdim, ite_not]
      rw [if_neg (by simpa using hne)]
    · intro d hdim heq
      simp only [createChunk, hdoc, hdl, ne_eq, not_true_eq_false, if_false,
        validateEmbeddingDimensions, hlib, hdim, ite_not]
      rw [if_pos (by simpa using heq)]
      exact ⟨_, _, rfl, rfl⟩
  · intro s chunk_id tOpt emb mOpt c doc L hc hd hl hLid hemb
    rcases List.exists_cons_of_ne_nil hemb with ⟨e0, erest, rfl⟩
    refine ⟨?_, ?_, ?_⟩
    · intro hdim
      simp only [updateChunk, hc, hd, validateEmbeddingDimensions, hl, hdim]
      refine ⟨_, _, rfl, ?_⟩
      simp only [Store.update_chunk, Store.update_library, Store.get_library, hLid]
      exact alGet_alInsert_self _ _ _
    · intro d hdim hne
      simp only [updateChunk, hc, hd, ne_eq, validateEmbeddingDimensions, hl,
        hdim, ite_not]
      rw [if_neg (by simpa using hne)]
    · intro d hdim heq
      simp only [updateChunk, hc, hd, ne_eq, validateEmbeddingDimensions, hl,
        hdim, ite_not]
      rw [if_pos (by simpa using heq)]
      exact ⟨_, _, rfl, rfl⟩

theorem chunk_dimension_enforcement_witness :
    createChunk
      ⟨[("L1", ⟨"L1", "lib", none, [], some 1⟩)],
       [("D1", ⟨"D1", "L1", "doc", none, []⟩)], []⟩
      "C1" "L1" "D1" "txt" [1, 2] []
    = (.error (.dimensionMismatch 1 2),
       ⟨[("L1", ⟨"L1", "lib", none, [], some 1⟩)],
        [("D1", ⟨"D1", "L1", "doc", none, []⟩)], []⟩) :=
  (chunk_dimension_enforcement.1
    ⟨[("L1", ⟨"L1", "lib", none, [], some 1⟩)],
     [("D1", ⟨"D1", "L1", "doc", none, []⟩)], []⟩
    "C1" "L1" "D1" "txt" [1, 2] [] ⟨"D1", "L1", "doc", none, []⟩
    ⟨"L1", "lib", none, [], some 1⟩ rfl rfl rfl rfl (by simp)).2.1
    1 rfl (by norm_num)

/-! ## C10: update_chunk atomicity on dimension error -/

/-- C10: updating a stored chunk (document present, library dimension
frozen) with a wrong-length non-empty embedding — whatever the text and
metadata arguments — raises `DimensionMismatch(expected, got)` and leaves
the whole store (the chunk's fields and the library's `embedding_dim`)
unchanged: validation precedes every field assignment. -/
theorem update_chunk_dimension_error_atomic
    (s : Store) (chunk_id : String) (tOpt : Option String)
    (e : List ℝ) (mOpt : Option (List (String × String)))
    (c : Chunk) (doc : Document) (L : Library) (d : ℕ)
    (hc : s.get_chunk chunk_id = some c)
    (hd : s.get_document c.document_id = some doc)
    (hl : s.get_library doc.library_id = some L)
    (hdim : L.embedding_dim = some d)
    (hne : e ≠ [])
    (hlen : e.length ≠ d) :
    updateChunk s chunk_id tOpt (some e) mOpt
      = (.error (.dimensionMismatch d e.length), s) := by
  rcases List.exists_cons_of_ne_nil hne with ⟨e0, erest, rfl⟩
  simp only [updateChunk, hc, hd, ne_eq, validateEmbeddingDimensions, hl,
    hdim, ite_not]
  rw [if_neg (by simpa using hlen)]

theorem update_chunk_dimension_error_atomic_witness :
    updateChunk
      ⟨[("L1", ⟨"L1", "lib", none, [], some 2⟩)],
       [("D1", ⟨"D1", "L1", "doc", none, []⟩)],
       [("C1", ⟨"C1", "D1", "old", [1, 1], [("k", "v")]⟩)]⟩
      "C1" (some "new") (some [2, 2, 2]) (some [])
    = (.error (.dimensionMismatch 2 3),
       ⟨[("L1", ⟨"L1", "lib", none, [], some 2⟩)],
        [("D1", ⟨"D1", "L1", "doc", none, []⟩)],
        [("C1", ⟨"C1", "D1", "old", [1, 1], [("k", "v")]⟩)]⟩) :=
  update_chunk_dimension_error_atomic
    ⟨[("L1", ⟨"L1", "lib", none, [], some 2⟩)],
     [("D1", ⟨"D1", "L1", "doc", none, []⟩)],
     [("C1", ⟨"C1", "D1", "old", [1, 1], [("k", "v")]⟩)]⟩
    "C1" (some "new") [2, 2, 2] (some [])
    ⟨"C1", "D1", "old", [1, 1], [("k", "v")]⟩
    ⟨"D1", "L1", "doc", none, []⟩
    ⟨"L1", "lib", none, [], some 2⟩ 2 rfl rfl rfl rfl (by simp) (by norm_num)

/-! ## C6: referential integrity -/

theorem alGet_alInsert_isSome {α : Type} {l : List (String × α)} {k' : String}
    (k : String) (v : α) (h : (alGet l k').isSome) :
    (alGet (alInsert l k v) k').isSome := by
  by_cases hk : k' = k
  · subst hk
    rw [alGet_alInsert_self]
    rfl
  · rwa [alGet_alInsert_ne _ _ _ _ hk]

theorem alGet_keyFilter {α : Type} (q : String → Bool) (l : List (String × α))
    (k : String) (hq : q k = true) :
    alGet (l.filter fun p => q p.1) k = alGet l k := by
  induction l with
  | nil => rfl
  | cons p t ih =>
    by_cases hp : p.1 = k
    · have hqp : q p.1 = true := by rw [hp]; exact hq
      rw [List.filter_cons, if_pos hqp]
      simp [alGet, hp]
    · by_cases hqp : q p.1 = true
      · rw [List.filter_cons, if_pos hqp]
        simp [alGet, hp, ih]
      · rw [List.filter_cons, if_neg (by simpa using hqp)]
        simp [alGet, hp, ih]

theorem alGet_alErase_ne {α : Type} (l : List (String × α)) (k x : String)
    (h : x ≠ k) : alGet (alErase l k) x = alGet l x := by
  induction l with
  | nil => rfl
  | cons p t ih =>
    by_cases hp : p.1 = k
    · rw [alErase, List.filter_cons, if_neg (by simpa using hp)]
      rw [alGet, if_neg (by rw [hp]; exact fun e => h e.symm)]
      exact ih
    · rw [alErase, List.filter_cons, if_pos (by simpa using hp)]
      by_cases hx : p.1 = x
      · simp [alGet, hx]
      · simp only [alGet, hx, if_false]
        exact ih

theorem nodup_keys_val_eq {α : Type} {l : List (String × α)}
    (h : (l.map Prod.fst).Nodup) {k : String} {a b : α}
    (ha : (k, a) ∈ l) (hb : (k, b) ∈ l) : a = b := by
  induction l with
  | nil => simp at ha
  | cons p t ih =>
    simp only [List.map_cons, List.nodup_cons] at h
    rcases List.mem_cons.1 ha with ha1 | ha1 <;> rcases List.mem_cons.1 hb with hb1 | hb1
    · exact congrArg Prod.snd (ha1.trans hb1.symm)
    · exact absurd (List.mem_map.2 ⟨(k, b), hb1, by rw [← ha1]⟩) h.1
    · exact absurd (List.mem_map.2 ⟨(k, a), ha1, by rw [← hb1]⟩) h.1
    · exact ih h.2 ha1 hb1

theorem mem_alValues {α : Type} {l : List (String × α)} {v : α} :
    v ∈ alValues l ↔ ∃ p ∈ l, p.2 = v := by
  simp [alValues]

/-- The dict well-formedness plus integrity bundle used in the induction. -/
theorem good_create_library (s : Store) (new_id name : String)
    (description : Option String) (metadata : List (String × String))
    (h : StoreWF s ∧ IntegrityOk s) :
    StoreWF (createLibrary s new_id name description metadata).2 ∧
      IntegrityOk (createLibrary s new_id name description metadata).2 := by
  obtain ⟨⟨hl1, hl2, hd1, hd2, hc1, hc2⟩, hi1, hi2⟩ := h
  constructor
  · refine ⟨?_, keys_alInsert_nodup _ _ hl2, hd1, hd2, hc1, hc2⟩
    intro p hp
    rcases mem_alInsert hp with h1 | h1
    · rw [h1]
    · exact hl1 _ h1
  · exact ⟨fun d hd => alGet_alInsert_isSome _ _ (hi1 d hd), hi2⟩

theorem good_update_library (s : Store) (library_id : String)
    (name description : Option String) (metadata : Option (List (String × String)))
    (h : StoreWF s ∧ IntegrityOk s) :
    StoreWF (updateLibrary s library_id name description metadata).2 ∧
      IntegrityOk (updateLibrary s library_id name description metadata).2 := by
  obtain ⟨⟨hl1, hl2, hd1, hd2, hc1, hc2⟩, hi1, hi2⟩ := h
  unfold updateLibrary
  cases hlib : s.get_library library_id with
  | none => exact ⟨⟨hl1, hl2, hd1, hd2, hc1, hc2⟩, hi1, hi2⟩
  | some library =>
    constructor
    · refine ⟨?_, keys_alInsert_nodup _ _ hl2, hd1, hd2, hc1, hc2⟩
      intro p hp
      rcases mem_alInsert hp with h1 | h1
      · rw [h1]
      · exact hl1 _ h1
    · exact ⟨fun d hd => alGet_alInsert_isSome _ _ (hi1 d hd), hi2⟩

theorem good_delete_library (s : Store) (library_id : String)
    (h : StoreWF s ∧ IntegrityOk s) :
    StoreWF (deleteLibrary s library_id) ∧ IntegrityOk (deleteLibrary s library_id) := by
  obtain ⟨⟨hl1, hl2, hd1, hd2, hc1, hc2⟩, hi1, hi2⟩ := h
  simp only [deleteLibrary, Store.delete_library]
  constructor
  · refine ⟨?_, keys_filter_nodup _ hl2, ?_, keys_filter_nodup _ hd2, ?_,
      keys_filter_nodup _ hc2⟩
    · exact fun p hp => hl1 _ (List.mem_filter.1 hp).1
    · exact fun p hp => hd1 _ (List.mem_filter.1 hp).1
    · exact fun p hp => hc1 _ (List.mem_filter.1 hp).1
  · constructor
    · -- surviving documents cannot belong to the deleted library
      intro d hd
      rcases mem_alValues.1 hd with ⟨p, hp, hpv⟩
      have hmem := List.mem_filter.1 hp
      have hkey : p.1 ∉ ((alValues s.documents).filter
          fun x => x.library_id = library_id).map (fun x => x.id) := by
        simpa using hmem.2
      have hdlib : d.library_id ≠ library_id := by
        intro hcontra
        refine hkey (List.mem_map.2 ⟨d, List.mem_filter.2
          ⟨mem_alValues.2 ⟨p, hmem.1, hpv⟩, by simpa using hcontra⟩, ?_⟩)
        rw [← hpv] at *
        exact hd1 _ hmem.1
      have : (s.get_library d.library_id).isSome :=
        hi1 d (mem_alValues.2 ⟨p, hmem.1, hpv⟩)
      show (alGet (alErase s.libraries library_id) d.library_id).isSome
      rwa [alGet_alErase_ne _ _ _ hdlib]
    · -- surviving chunks keep their document
      intro c hc
      rcases mem_alValues.1 hc with ⟨p, hp, hpv⟩
      have hmem := List.mem_filter.1 hp
      have hkey : p.1 ∉ ((alValues s.chunks).filter
          (fun x => decide (x.document_id ∈ ((alValues s.documents).filter
            fun y => y.library_id = library_id).map (fun y => y.id)))).map
            (fun x => x.id) := by
        simpa using hmem.2
      have hcold : (s.get_document c.document_id).isSome :=
        hi2 c (mem_alValues.2 ⟨p, hmem.1, hpv⟩)
      rcases Option.isSome_iff_exists.1 hcold with ⟨dd, hdd⟩
      have hddmem : (c.document_id, dd) ∈ s.documents := alGet_mem hdd
      have hdocid : c.document_id ∉ ((alValues s.documents).filter
          fun y => y.library_id = library_id).map (fun y => y.id) := by
        intro hcontra
        rcases List.mem_map.1 hcontra with ⟨dv, hdvmem, hdvid⟩
        have hdvfull := List.mem_filter.1 hdvmem
        rcases mem_alValues.1 hdvfull.1 with ⟨pdv, hpdv, hpdvv⟩
        have hpdvkey : pdv.1 = c.document_id := by
          rw [← hdvid, ← hpdvv]
          exact (hd1 _ hpdv).symm
        have : pdv.2 = dd := by
          have h1 : (c.document_id, pdv.2) ∈ s.documents := by
            have : pdv = (c.document_id, pdv.2) := by
              rw [← hpdvkey]
            rw [← this]
            exact hpdv
          exact nodup_keys_val_eq hd2 h1 hddmem
        -- so the chunk's own document is being deleted; then the chunk is too
        refine hkey (List.mem_map.2 ⟨c, List.mem_filter.2
          ⟨mem_alValues.2 ⟨p, hmem.1, hpv⟩, ?_⟩, ?_⟩)
        · simpa using hcontra
        · rw [← hpv] at *
          exact hc1 _ hmem.1
      unfold Store.get_document
      rw [alGet_keyFilter (fun x => decide ¬(x ∈ ((alValues s.documents).filter
        fun y => y.library_id = library_id).map (fun y => y.id))) _ _
        (by simpa using hdocid)]
      exact hcold

theorem good_create_document (s : Store) (new_id library_id title : String)
    (description : Option String) (metadata : List (String × String))
    (h : StoreWF s ∧ IntegrityOk s) :
    StoreWF (createDocument s new_id library_id title description metadata).2 ∧
      IntegrityOk (createDocument s new_id library_id title description metadata).2 := by
  obtain ⟨⟨hl1, hl2, hd1, hd2, hc1, hc2⟩, hi1, hi2⟩ := h
  unfold createDocument
  cases hlib : s.get_library library_id with
  | none => exact ⟨⟨hl1, hl2, hd1, hd2, hc1, hc2⟩, hi1, hi2⟩
  | some library =>
    constructor
    · refine ⟨hl1, hl2, ?_, keys_alInsert_nodup _ _ hd2, hc1, hc2⟩
      intro p hp
      rcases mem_alInsert hp with h1 | h1
      · rw [h1]
      · exact hd1 _ h1
    · constructor
      · intro d hd
        rcases mem_alValues.1 hd with ⟨p, hp, hpv⟩
        rcases mem_alInsert hp with h1 | h1
        · have hdl : d.library_id = library_id := by rw [← hpv, h1]
          have hlib' : alGet s.libraries library_id = some library := hlib
          show (alGet s.libraries d.library_id).isSome
          rw [hdl, hlib']
          rfl
        · exact hi1 d (mem_alValues.2 ⟨p, h1, hpv⟩)
      · intro c hc
        exact alGet_alInsert_isSome _ _ (hi2 c hc)

theorem good_update_document (s : Store) (document_id : String)
    (title description : Option String) (metadata : Option (List (String × String)))
    (h : StoreWF s ∧ IntegrityOk s) :
    StoreWF (updateDocument s document_id title description metadata).2 ∧
      IntegrityOk (updateDocument s document_id title description metadata).2 := by
  obtain ⟨⟨hl1, hl2, hd1, hd2, hc1, hc2⟩, hi1, hi2⟩ := h
  unfold updateDocument
  cases hdoc : s.get_document document_id with
  | none => exact ⟨⟨hl1, hl2, hd1, hd2, hc1, hc2⟩, hi1, hi2⟩
  | some document =>
    have hdocmem : (document_id, document) ∈ s.documents := alGet_mem hdoc
    constructor
    · refine ⟨hl1, hl2, ?_, keys_alInsert_nodup _ _ hd2, hc1, hc2⟩
      intro p hp
      rcases mem_alInsert hp with h1 | h1
      · rw [h1]
      · exact hd1 _ h1
    · constructor
      · intro d hd
        rcases mem_alValues.1 hd with ⟨p, hp, hpv⟩
        rcases mem_alInsert hp with h1 | h1
        · have hlibid : d.library_id = document.library_id := by
            rw [← hpv, h1]
            cases title <;> cases description <;> cases metadata <;> rfl
          rw [hlibid]
          exact hi1 document (mem_alValues.2 ⟨(document_id, document), hdocmem, rfl⟩)
        · exact hi1 d (mem_alValues.2 ⟨p, h1, hpv⟩)
      · intro c hc
        exact alGet_alInsert_isSome _ _ (hi2 c hc)

theorem good_delete_document (s : Store) (document_id : String)
    (h : StoreWF s ∧ IntegrityOk s) :
    StoreWF (deleteDocument s document_id) ∧
      IntegrityOk (deleteDocument s document_id) := by
  obtain ⟨⟨hl1, hl2, hd1, hd2, hc1, hc2⟩, hi1, hi2⟩ := h
  simp only [deleteDocument, Store.delete_document]
  constructor
  · refine ⟨hl1, hl2, ?_, keys_filter_nodup _ hd2, ?_, keys_filter_nodup _ hc2⟩
    · exact fun p hp => hd1 _ (List.mem_filter.1 hp).1
    · exact fun p hp => hc1 _ (List.mem_filter.1 hp).1
  · constructor
    · intro d hd
      rcases mem_alValues.1 hd with ⟨p, hp, hpv⟩
      have hmem := List.mem_filter.1 hp
      exact hi1 d (mem_alValues.2 ⟨p, hmem.1, hpv⟩)
    · intro c hc
      rcases mem_alValues.1 hc with ⟨p, hp, hpv⟩
      have hmem := List.mem_filter.1 hp
      have hkey : p.1 ∉ ((alValues s.chunks).filter
          fun x => x.document_id = document_id).map (fun x => x.id) := by
        simpa using hmem.2
      have hcdoc : c.document_id ≠ document_id := by
        intro hcontra
        refine hkey (List.mem_map.2 ⟨c, List.mem_filter.2
          ⟨mem_alValues.2 ⟨p, hmem.1, hpv⟩, by simpa using hcontra⟩, ?_⟩)
        rw [← hpv] at *
        exact hc1 _ hmem.1
      have hcold : (s.get_document c.document_id).isSome :=
        hi2 c (mem_alValues.2 ⟨p, hmem.1, hpv⟩)
      show (alGet (alErase s.documents document_id) c.document_id).isSome
      rwa [alGet_alErase_ne _ _ _ hcdoc]

/-- The validation step preserves well-formedness and integrity, and only
ever touches the library table. -/
theorem good_validate (s : Store) (library_id : String) (embedding : List ℝ)
    (h : StoreWF s ∧ IntegrityOk s) :
    (StoreWF (validateEmbeddingDimensions s library_id embedding).2 ∧
      IntegrityOk (validateEmbeddingDimensions s library_id embedding).2) ∧
    (validateEmbeddingDimensions s library_id embedding).2.documents = s.documents ∧
    (validateEmbeddingDimensions s library_id embedding).2.chunks = s.chunks := by
  obtain ⟨⟨hl1, hl2, hd1, hd2, hc1, hc2⟩, hi1, hi2⟩ := h
  unfold validateEmbeddingDimensions
  cases embedding with
  | nil => exact ⟨⟨⟨hl1, hl2, hd1, hd2, hc1, hc2⟩, hi1, hi2⟩, rfl, rfl⟩
  | cons e0 erest =>
    cases hlib : s.get_library library_id with
    | none =>
      dsimp only
      exact ⟨⟨⟨hl1, hl2, hd1, hd2, hc1, hc2⟩, hi1, hi2⟩, rfl, rfl⟩
    | some library =>
      dsimp only
      cases hdim : library.embedding_dim with
      | some expected =>
        dsimp only
        by_cases hlen : (e0 :: erest).length ≠ expected
        · rw [if_pos hlen]
          exact ⟨⟨⟨hl1, hl2, hd1, hd2, hc1, hc2⟩, hi1, hi2⟩, rfl, rfl⟩
        · rw [if_neg hlen]
          exact ⟨⟨⟨hl1, hl2, hd1, hd2, hc1, hc2⟩, hi1, hi2⟩, rfl, rfl⟩
      | none =>
        dsimp only
        refine ⟨⟨⟨?_, keys_alInsert_nodup _ _ hl2, hd1, hd2, hc1, hc2⟩,
          fun d hd => alGet_alInsert_isSome _ _ (hi1 d hd), hi2⟩, rfl, rfl⟩
        intro p hp
        rcases mem_alInsert hp with h1 | h1
        · rw [h1]
        · exact hl1 _ h1

theorem good_create_chunk (s : Store) (new_id library_id document_id text : String)
    (embedding : List ℝ) (metadata : List (String × String))
    (h : StoreWF s ∧ IntegrityOk s) :
    StoreWF (createChunk s new_id library_id document_id text embedding metadata).2 ∧
      IntegrityOk (createChunk s new_id library_id document_id text embedding metadata).2 := by
  have hgood := h
  obtain ⟨⟨hl1, hl2, hd1, hd2, hc1, hc2⟩, hi1, hi2⟩ := h
  unfold createChunk
  cases hdoc : s.get_document document_id with
  | none => exact ⟨⟨hl1, hl2, hd1, hd2, hc1, hc2⟩, hi1, hi2⟩
  | some document =>
    dsimp only
    by_cases hmatch : document.library_id ≠ library_id
    · rw [if_pos hmatch]
      exact ⟨⟨hl1, hl2, hd1, hd2, hc1, hc2⟩, hi1, hi2⟩
    · rw [if_neg hmatch]
      obtain ⟨⟨⟨hl1', hl2', hd1', hd2', hc1', hc2'⟩, hi1', hi2'⟩, hdocs', hchunks'⟩ :=
        good_validate s library_id embedding hgood
      cases hv : validateEmbeddingDimensions s library_id embedding with
      | mk res s' =>
        rw [hv] at hl1' hl2' hd1' hd2' hc1' hc2' hi1' hi2' hdocs' hchunks'
        cases res with
        | error e => exact ⟨⟨hl1', hl2', hd1', hd2', hc1', hc2'⟩, hi1', hi2'⟩
        | ok u =>
          dsimp only
          constructor
          · refine ⟨hl1', hl2', hd1', hd2', ?_, keys_alInsert_nodup _ _ hc2'⟩
            intro p hp
            rcases mem_alInsert hp with h1 | h1
            · rw [h1]
            · exact hc1' _ h1
          · constructor
            · exact hi1'
            · intro c hc
              rcases mem_alValues.1 hc with ⟨p, hp, hpv⟩
              rcases mem_alInsert hp with h1 | h1
              · have hcd : c.document_id = document_id := by rw [← hpv, h1]
                have hds : (alGet s.documents document_id).isSome := by
                  have hd' : alGet s.documents document_id = some document := hdoc
                  rw [hd']
                  rfl
                show (alGet s'.documents c.document_id).isSome
                rw [hcd, hdocs']
                exact hds
              · exact hi2' c (mem_alValues.2 ⟨p, h1, hpv⟩)

theorem good_update_chunk (s : Store) (chunk_id : String) (text : Option String)
    (embedding : Option (List ℝ)) (metadata : Option (List (String × String)))
    (h : StoreWF s ∧ IntegrityOk s) :
    StoreWF (updateChunk s chunk_id text embedding metadata).2 ∧
      IntegrityOk (updateChunk s chunk_id text embedding metadata).2 := by
  have hgood := h
  obtain ⟨⟨hl1, hl2, hd1, hd2, hc1, hc2⟩, hi1, hi2⟩ := h
  unfold updateChunk
  cases hch : s.get_chunk chunk_id with
  | none => exact ⟨⟨hl1, hl2, hd1, hd2, hc1, hc2⟩, hi1, hi2⟩
  | some chunk =>
    dsimp only
    have hchmem : (chunk_id, chunk) ∈ s.chunks := alGet_mem hch
    have hkeep : ∀ (c1 : Chunk) (s1 : Store),
        (StoreWF s1 ∧ IntegrityOk s1) → s1.documents = s.documents →
        c1.document_id = chunk.document_id →
        StoreWF (s1.update_chunk c1) ∧ IntegrityOk (s1.update_chunk c1) := by
      intro c1 s1 hg1 hdocs hdocid
      obtain ⟨⟨g1, g2, g3, g4, g5, g6⟩, gi1, gi2⟩ := hg1
      constructor
      · refine ⟨g1, g2, g3, g4, ?_, keys_alInsert_nodup _ _ g6⟩
        intro p hp
        rcases mem_alInsert hp with h1 | h1
        · rw [h1]
        · exact g5 _ h1
      · constructor
        · exact gi1
        · intro c hcv
          rcases mem_alValues.1 hcv with ⟨p, hp, hpv⟩
          rcases mem_alInsert hp with h1 | h1
          · have hcd : c.document_id = chunk.document_id := by rw [← hpv, h1, hdocid]
            have hds : (alGet s.documents chunk.document_id).isSome :=
              hi2 chunk (mem_alValues.2 ⟨(chunk_id, chunk), hchmem, rfl⟩)
            show (alGet s1.documents c.document_id).isSome
            rw [hcd, hdocs]
            exact hds
          · exact gi2 c (mem_alValues.2 ⟨p, h1, hpv⟩)
    cases embedding with
    | none =>
      apply hkeep
      · exact ⟨⟨hl1, hl2, hd1, hd2, hc1, hc2⟩, hi1, hi2⟩
      · rfl
      · cases text <;> cases metadata <;> rfl
    | some e =>
      cases hdoc : s.get_document chunk.document_id with
      | none =>
        dsimp only
        apply hkeep
        · exact ⟨⟨hl1, hl2, hd1, hd2, hc1, hc2⟩, hi1, hi2⟩
        · rfl
        · cases text <;> cases metadata <;> rfl
      | some document =>
        dsimp only
        obtain ⟨hg', hdocs', hchunks'⟩ :=
          good_validate s document.library_id e hgood
        cases hv : validateEmbeddingDimensions s document.library_id e with
        | mk res s' =>
          rw [hv] at hg' hdocs' hchunks'
          cases res with
          | error er => exact ⟨⟨hl1, hl2, hd1, hd2, hc1, hc2⟩, hi1, hi2⟩
          | ok u =>
            dsimp only
            apply hkeep
            · exact hg'
            · exact hdocs'
            · cases text <;> cases metadata <;> rfl

theorem good_delete_chunk (s : Store) (chunk_id : String)
    (h : StoreWF s ∧ IntegrityOk s) :
    StoreWF (deleteChunk s chunk_id) ∧ IntegrityOk (deleteChunk s chunk_id) := by
  obtain ⟨⟨hl1, hl2, hd1, hd2, hc1, hc2⟩, hi1, hi2⟩ := h
  constructor
  · exact ⟨hl1, hl2, hd1, hd2, fun p hp => hc1 _ (mem_alErase hp).1,
      keys_filter_nodup _ hc2⟩
  · refine ⟨hi1, ?_⟩
    intro c hc
    rcases mem_alValues.1 hc with ⟨p, hp, hpv⟩
    exact hi2 c (mem_alValues.2 ⟨p, (mem_alErase hp).1, hpv⟩)

theorem reachable_store_good (s : Store) (h : ReachableStore s) :
    StoreWF s ∧ IntegrityOk s := by
  induction h with
  | empty =>
    exact ⟨⟨fun p hp => absurd hp (by simp), by simp,
      fun p hp => absurd hp (by simp), by simp,
      fun p hp => absurd hp (by simp), by simp⟩,
      fun d hd => absurd hd (by simp [alValues]),
      fun c hc => absurd hc (by simp [alValues])⟩
  | create_library s new_id name description metadata hr ih =>
    exact good_create_library s new_id name description metadata ih
  | update_library s library_id name description metadata hr ih =>
    exact good_update_library s library_id name description metadata ih
  | delete_library s library_id hr ih => exact good_delete_library s library_id ih
  | create_document s new_id library_id title description metadata hr ih =>
    exact good_create_document s new_id library_id title description metadata ih
  | update_document s document_id title description metadata hr ih =>
    exact good_update_document s document_id title description metadata ih
  | delete_document s document_id hr ih => exact good_delete_document s document_id ih
  | create_chunk s new_id library_id document_id text embedding metadata hr ih =>
    exact good_create_chunk s new_id library_id document_id text embedding metadata ih
  | update_chunk s chunk_id text embedding metadata hr ih =>
    exact good_update_chunk s chunk_id text embedding metadata ih
  | delete_chunk s chunk_id hr ih => exact good_delete_chunk s chunk_id ih

/-- C6: referential integrity is an invariant of the service layer: in every
store reachable through the service-level create/update/delete operations
(cascade deletes included), every document's `library_id` names an existing
library and every chunk's `document_id` names an existing document. -/
theorem reachable_referential_integrity (s : Store) (h : ReachableStore s) :
    IntegrityOk s :=
  (reachable_store_good s h).2

theorem reachable_referential_integrity_witness :
    IntegrityOk (createDocument
      (createLibrary ⟨[], [], []⟩ "L1" "lib" none []).2 "D1" "L1" "doc" none []).2 :=
  reachable_referential_integrity _
    (ReachableStore.create_document _ "D1" "L1" "doc" none []
      (ReachableStore.create_library _ "L1" "lib" none [] ReachableStore.empty))

/-! ## C7: snapshot round trip -/

theorem alInsert_append_of_not_mem {α : Type} {l : List (String × α)}
    {k : String} (v : α) (h : k ∉ l.map Prod.fst) :
    alInsert l k v = l ++ [(k, v)] := by
  induction l with
  | nil => rfl
  | cons p t ih =>
    simp only [List.map_cons, List.mem_cons] at h
    push_neg at h
    rw [alInsert, if_neg (Ne.symm h.1)]
    rw [ih h.2]
    rfl

theorem foldl_alInsert_values {α : Type} (idOf : α → String) :
    ∀ (l acc : List (String × α)),
      (∀ p ∈ l, idOf p.2 = p.1) → ((acc ++ l).map Prod.fst).Nodup →
      (alValues l).foldl (fun t v => alInsert t (idOf v) v) acc = acc ++ l := by
  intro l
  induction l with
  | nil => intro acc _ _; simp [alValues]
  | cons p t ih =>
    intro acc hid hnodup
    have hk : idOf p.2 = p.1 := hid p (List.mem_cons_self _ _)
    have hknot : p.1 ∉ acc.map Prod.fst := by
      intro hmem
      have hN : (acc.map Prod.fst ++ (p.1 :: t.map Prod.fst)).Nodup := by
        simpa using hnodup
      exact (List.nodup_append.1 hN).2.2 hmem (List.mem_cons_self _ _)
    show ((p.2 :: alValues t).foldl (fun t v => alInsert t (idOf v) v) acc = acc ++ p :: t)
    rw [List.foldl_cons, hk, alInsert_append_of_not_mem _ hknot]
    have := ih (acc ++ [p]) (fun q hq => hid q (List.mem_cons_of_mem _ hq))
      (by simpa using hnodup)
    rw [this]
    simp

theorem loadStore_roundtrip (sys : SystemState) (hWF : StoreWF sys.store) :
    loadStoreSnapshot (saveSnapshot sys) = sys.store := by
  obtain ⟨⟨la, da, ca⟩, reg⟩ := sys
  obtain ⟨hl1, hl2, hd1, hd2, hc1, hc2⟩ := hWF
  show Store.mk
    ((alValues la).foldl (fun t v => alInsert t v.id v) [])
    ((alValues da).foldl (fun t v => alInsert t v.id v) [])
    ((alValues ca).foldl (fun t v => alInsert t v.id v) []) = Store.mk la da ca
  rw [foldl_alInsert_values Library.id la [] hl1 (by simpa using hl2)]
  rw [foldl_alInsert_values Document.id da [] hd1 (by simpa using hd2)]
  rw [foldl_alInsert_values Chunk.id ca [] hc1 (by simpa using hc2)]
  simp

theorem buildIndexOp_store (planeGen : ℕ → List (List (List ℝ)))
    (sys : SystemState) (library_id algorithm metric : String) :
    (buildIndexOp planeGen sys library_id algorithm metric).2.store = sys.store := by
  simp only [buildIndexOp]
  cases createAndBuildIndex planeGen (strLower algorithm) (strLower metric)
    ((if (sys.store.list_chunks library_id).isEmpty then []
      else validPairs (sys.store.list_chunks library_id)).map fun p => p.1)
    ((if (sys.store.list_chunks library_id).isEmpty then []
      else validPairs (sys.store.list_chunks library_id)).map fun p => p.2) with
  | error e => rfl
  | ok index => rfl

theorem buildIndexOp_other_key (planeGen : ℕ → List (List (List ℝ)))
    (sys : SystemState) (library_id algorithm metric x : String) (hx : x ≠ library_id) :
    alGet (buildIndexOp planeGen sys library_id algorithm metric).2.registry.meta x
        = alGet sys.registry.meta x ∧
      alGet (buildIndexOp planeGen sys library_id algorithm metric).2.registry.indices x
        = alGet sys.registry.indices x := by
  simp only [buildIndexOp]
  cases createAndBuildIndex planeGen (strLower algorithm) (strLower metric)
    ((if (sys.store.list_chunks library_id).isEmpty then []
      else validPairs (sys.store.list_chunks library_id)).map fun p => p.1)
    ((if (sys.store.list_chunks library_id).isEmpty then []
      else validPairs (sys.store.list_chunks library_id)).map fun p => p.2) with
  | error e => exact ⟨rfl, rfl⟩
  | ok index => exact ⟨alGet_alInsert_ne _ _ _ _ hx, alGet_alInsert_ne _ _ _ _ hx⟩

theorem validate_inputs_ok (vs : List (List ℝ)) (ids : List String)
    (hlen : vs.length = ids.length)
    (hdim : ∀ v ∈ vs, v.length = (vs.headD []).length) :
    validate_inputs vs ids = .ok () := by
  unfold validate_inputs
  rw [if_neg (by simp [hlen])]
  rw [if_neg ?_]
  intro hcontra
  simp only [Bool.and_eq_true, List.any_eq_true] at hcontra
  rcases hcontra with ⟨_, v, hv, hv2⟩
  exact absurd (hdim v hv) (by simpa using hv2)

/-- The vectors handed to a rebuild all share one length, by the library's
dimension consistency. -/
theorem validPairs_dims (st : Store) (library_id : String)
    (hdims : LibraryDimsConsistent st) :
    ∀ v ∈ (validPairs (st.list_chunks library_id)).map (fun p => p.1),
      v.length = (((validPairs (st.list_chunks library_id)).map
        (fun p => p.1)).headD []).length := by
  intro v hv
  rcases List.mem_map.1 hv with ⟨p, hp, hpv⟩
  rcases List.mem_map.1 hp with ⟨c, hcmem, hcp⟩
  have hcfull := List.mem_filter.1 hcmem
  cases hfc : (st.list_chunks library_id).filter fun c => ¬c.embedding.isEmpty with
  | nil =>
    rw [validPairs, hfc] at hp
    simp at hp
  | cons c0 rest =>
    have hc0 := List.mem_filter.1 (hfc ▸ List.mem_cons_self c0 rest)
    have hhead : (((validPairs (st.list_chunks library_id)).map
        (fun p => p.1)).headD []) = c0.embedding := by
      rw [validPairs, hfc]
      rfl
    rw [hhead, ← hpv, ← hcp]
    exact hdims library_id c hcfull.1 c0 hc0.1
      (by simpa using hcfull.2) (by simpa using hc0.2)

/-- A `build_index` whose `(algorithm, metric)` pair came from a previously
installed index (hence is valid) succeeds against a dimension-consistent
store, and re-records exactly that pair. -/
theorem buildIndexOp_success (planeGen : ℕ → List (List (List ℝ)))
    (sys : SystemState) (library_id : String) (pr : String × String)
    (hvalid : pr ∈ [("linear", "cosine"), ("linear", "euclidean"),
      ("kdtree", "euclidean"), ("lsh", "cosine")])
    (hdims : LibraryDimsConsistent sys.store) :
    alGet (buildIndexOp planeGen sys library_id pr.1 pr.2).2.registry.meta library_id
        = some pr ∧
      (alGet (buildIndexOp planeGen sys library_id pr.1 pr.2).2.registry.indices
        library_id).isSome := by
  have hvalid' : pr = ("linear", "cosine") ∨ pr = ("linear", "euclidean") ∨
      pr = ("kdtree", "euclidean") ∨ pr = ("lsh", "cosine") := by
    simpa using hvalid
  have hval : ∀ (vs : List (List ℝ)) (ids : List String),
      vs.length = ids.length →
      (∀ v ∈ vs, v.length = (vs.headD []).length) →
      ∃ idx, createAndBuildIndex planeGen pr.1 pr.2 vs ids = .ok idx ∧
        idx.kind = pr.1 ∧ idx.metricName = pr.2 := by
    intro vs ids hlen hdim
    have hv := validate_inputs_ok vs ids hlen hdim
    have hlin : ∀ m, LinearIndex.build m vs ids = .ok ⟨m, vs, ids⟩ := by
      intro m
      unfold LinearIndex.build
      rw [hv]
      rfl
    have hkd : ∃ st, KDTreeIndex.build vs ids = .ok st := by
      unfold KDTreeIndex.build
      rw [hv]
      cases vs with
      | nil => exact ⟨_, rfl⟩
      | cons v0 vrest => exact ⟨_, rfl⟩
    have hlsh : ∃ st, LSHIndex.build default_lsh_num_planes default_lsh_num_tables
        planeGen vs ids = .ok st := by
      unfold LSHIndex.build
      rw [hv]
      cases vs with
      | nil => exact ⟨_, rfl⟩
      | cons v0 vrest => exact ⟨_, rfl⟩
    rcases hvalid' with h | h | h | h <;> subst h
    · refine ⟨.linear ⟨"cosine", vs, ids⟩, ?_, rfl, rfl⟩
      unfold createAndBuildIndex
      rw [if_neg (by decide), if_neg (by decide), if_neg (by decide), if_pos rfl,
        hlin "cosine"]
    · refine ⟨.linear ⟨"euclidean", vs, ids⟩, ?_, rfl, rfl⟩
      unfold createAndBuildIndex
      rw [if_neg (by decide), if_neg (by decide), if_neg (by decide), if_pos rfl,
        hlin "euclidean"]
    · rcases hkd with ⟨st, hst⟩
      refine ⟨.kdtree st, ?_, rfl, rfl⟩
      unfold createAndBuildIndex
      rw [if_neg (by decide), if_neg (by decide), if_neg (by decide),
        if_neg (by decide), if_pos rfl, hst]
    · rcases hlsh with ⟨st, hst⟩
      refine ⟨.lsh st, ?_, rfl, rfl⟩
      unfold createAndBuildIndex
      rw [if_neg (by decide), if_neg (by decide), if_neg (by decide),
        if_neg (by decide), if_neg (by decide), hst]
  simp only [buildIndexOp]
  have hlow1 : strLower pr.1 = pr.1 := by
    rcases hvalid' with h | h | h | h <;> rw [h] <;> rfl
  have hlow2 : strLower pr.2 = pr.2 := by
    rcases hvalid' with h | h | h | h <;> rw [h] <;> rfl
  rw [hlow1, hlow2]
  set chunks := sys.store.list_chunks library_id with hchunks
  set pairs := if chunks.isEmpty then [] else validPairs chunks with hpairs
  have hdim : ∀ v ∈ pairs.map (fun p => p.1),
      v.length = ((pairs.map (fun p => p.1)).headD []).length := by
    rw [hpairs]
    by_cases he : chunks.isEmpty
    · simp [he]
    · simp only [he, if_false]
      exact validPairs_dims sys.store library_id hdims
  rcases hval (pairs.map fun p => p.1) (pairs.map fun p => p.2)
      (by simp) hdim with ⟨idx, hidx, hkind, hmetric⟩
  rw [hidx]
  dsimp only
  constructor
  · rw [hkind, hmetric, alGet_alInsert_self]
  · rw [alGet_alInsert_self]
    rfl

theorem rebuild_other_key (planeGen : ℕ → List (List (List ℝ))) :
    ∀ (meta : List (String × (String × String))) (sys : SystemState) (x : String),
      x ∉ meta.map Prod.fst →
      alGet (rebuildIndices planeGen meta sys).registry.meta x
          = alGet sys.registry.meta x ∧
        alGet (rebuildIndices planeGen meta sys).registry.indices x
          = alGet sys.registry.indices x := by
  intro meta
  induction meta with
  | nil => intro sys x _; exact ⟨rfl, rfl⟩
  | cons e rest ih =>
    intro sys x hx
    simp only [List.map_cons, List.mem_cons] at hx
    push_neg at hx
    have hstep := buildIndexOp_other_key planeGen sys e.1 e.2.1 e.2.2 x hx.1
    have := ih (buildIndexOp planeGen sys e.1 e.2.1 e.2.2).2 x hx.2
    exact ⟨this.1.trans hstep.1, this.2.trans hstep.2⟩

theorem rebuild_preserves (planeGen : ℕ → List (List (List ℝ))) :
    ∀ (meta : List (String × (String × String))) (sys : SystemState),
      MetaValid meta → (meta.map Prod.fst).Nodup →
      LibraryDimsConsistent sys.store →
      (rebuildIndices planeGen meta sys).store = sys.store ∧
      ∀ p ∈ meta, alGet (rebuildIndices planeGen meta sys).registry.meta p.1 = some p.2 ∧
        (alGet (rebuildIndices planeGen meta sys).registry.indices p.1).isSome := by
  intro meta
  induction meta with
  | nil => intro sys _ _ _; exact ⟨rfl, by simp⟩
  | cons e rest ih =>
    intro sys hvalid hnodup hdims
    set sys1 := (buildIndexOp planeGen sys e.1 e.2.1 e.2.2).2 with hsys1
    have hstore1 : sys1.store = sys.store := buildIndexOp_store planeGen sys e.1 e.2.1 e.2.2
    simp only [List.map_cons, List.nodup_cons] at hnodup
    have hrest := ih sys1 (fun p hp => hvalid p (List.mem_cons_of_mem _ hp))
      hnodup.2 (by rw [hstore1]; exact hdims)
    have hself := buildIndexOp_success planeGen sys e.1 e.2
      (by simpa using hvalid e (List.mem_cons_self _ _)) hdims
    have hrebuild : rebuildIndices planeGen (e :: rest) sys
        = rebuildIndices planeGen rest sys1 := rfl
    constructor
    · rw [hrebuild, hrest.1, hstore1]
    · intro p hp
      rcases List.mem_cons.1 hp with h1 | h1
      · subst h1
        have hother := rebuild_other_key planeGen rest sys1 p.1 hnodup.1
        rw [hrebuild, hother.1, hother.2]
        exact hself
      · exact hrebuild ▸ hrest.2 p h1

/-- C7: the snapshot round trip `load(save())` leaves the listings of
libraries, documents and chunks equal to their pre-save values, and every
library that had an index before the save has one afterwards recorded with
the same `(algorithm, metric)` pair.  (The store is dict-well-formed and
dimension-consistent, and the registry metadata holds valid pairs with
unique keys — all invariants of the running system.) -/
theorem snapshot_roundtrip (planeGen : ℕ → List (List (List ℝ)))
    (sys : SystemState)
    (hWF : StoreWF sys.store)
    (hdims : LibraryDimsConsistent sys.store)
    (hmeta : MetaValid sys.registry.meta)
    (hnodup : (sys.registry.meta.map Prod.fst).Nodup) :
    (applyLoad planeGen (saveSnapshot sys) sys).store.list_libraries
        = sys.store.list_libraries ∧
    (∀ lib, (applyLoad planeGen (saveSnapshot sys) sys).store.list_documents lib
        = sys.store.list_documents lib) ∧
    (∀ lib, (applyLoad planeGen (saveSnapshot sys) sys).store.list_chunks lib
        = sys.store.list_chunks lib) ∧
    ∀ lib pr, alGet sys.registry.meta lib = some pr →
      alGet (applyLoad planeGen (saveSnapshot sys) sys).registry.meta lib = some pr ∧
      (alGet (applyLoad planeGen (saveSnapshot sys) sys).registry.indices lib).isSome := by
  have hload : applyLoad planeGen (saveSnapshot sys) sys
      = rebuildIndices planeGen sys.registry.meta sys := by
    unfold applyLoad
    rw [show (saveSnapshot sys).indices = sys.registry.meta from rfl]
    rw [loadStore_roundtrip sys hWF]
  have hpres := rebuild_preserves planeGen sys.registry.meta sys hmeta hnodup hdims
  refine ⟨?_, ?_, ?_, ?_⟩
  · rw [hload, hpres.1]
  · intro lib
    rw [hload, hpres.1]
  · intro lib
    rw [hload, hpres.1]
  · intro lib pr hpr
    rw [hload]
    exact hpres.2 (lib, pr) (alGet_mem hpr)

theorem snapshot_roundtrip_witness :
    (applyLoad (fun _ => [])
        (saveSnapshot ⟨⟨[("L", ⟨"L", "lib", none, [], none⟩)], [], []⟩,
          ⟨[("L", .linear ⟨"cosine", [], []⟩)], [("L", ("linear", "cosine"))]⟩⟩)
        ⟨⟨[("L", ⟨"L", "lib", none, [], none⟩)], [], []⟩,
          ⟨[("L", .linear ⟨"cosine", [], []⟩)],
            [("L", ("linear", "cosine"))]⟩⟩).store.list_libraries
      = (⟨⟨[("L", ⟨"L", "lib", none, [], none⟩)], [], []⟩,
          ⟨[("L", .linear ⟨"cosine", [], []⟩)],
            [("L", ("linear", "cosine"))]⟩⟩ : SystemState).store.list_libraries ∧
    alGet (applyLoad (fun _ => [])
        (saveSnapshot ⟨⟨[("L", ⟨"L", "lib", none, [], none⟩)], [], []⟩,
          ⟨[("L", .linear ⟨"cosine", [], []⟩)], [("L", ("linear", "cosine"))]⟩⟩)
        ⟨⟨[("L", ⟨"L", "lib", none, [], none⟩)], [], []⟩,
          ⟨[("L", .linear ⟨"cosine", [], []⟩)],
            [("L", ("linear", "cosine"))]⟩⟩).registry.meta "L"
      = some ("linear", "cosine") := by
  have h := snapshot_roundtrip (fun _ => [])
    ⟨⟨[("L", ⟨"L", "lib", none, [], none⟩)], [], []⟩,
      ⟨[("L", .linear ⟨"cosine", [], []⟩)], [("L", ("linear", "cosine"))]⟩⟩
    (by refine ⟨?_, ?_, ?_, ?_, ?_, ?_⟩ <;> simp)
    (by intro lib c1 h1 c2 h2 _ _; simp [Store.list_chunks, alValues] at h1)
    (by intro p hp; simp at hp; simp [hp])
    (by simp)
  exact ⟨h.1, (h.2.2.2 "L" ("linear", "cosine") rfl).1⟩

/-! ## C4: deleted chunks and search results -/

theorem getOrCreateIndex_store (sys : SystemState) (library_id : String) :
    (getOrCreateIndex sys library_id).2.store = sys.store := by
  simp only [getOrCreateIndex]
  cases alGet sys.registry.indices library_id with
  | some index => rfl
  | none =>
    by_cases he : (sys.store.list_chunks library_id).isEmpty
    · rw [if_pos he]
    · rw [if_neg he]
      by_cases hp : (validPairs (sys.store.list_chunks library_id)).isEmpty
      · rw [if_pos hp]
      · rw [if_neg hp]
        cases LinearIndex.build default_metric
            ((validPairs (sys.store.list_chunks library_id)).map fun p => p.1)
            ((validPairs (sys.store.list_chunks library_id)).map fun p => p.2) with
        | error e => rfl
        | ok s => rfl

theorem mem_applyMetadataFilters (st : Store) (results : List (String × ℝ))
    (filters : List (String × String)) (p : String × ℝ)
    (hp : p ∈ applyMetadataFilters st results filters) :
    (st.get_chunk p.1).isSome := by
  unfold applyMetadataFilters at hp
  have hmem := List.mem_filter.1 hp
  have h2 := hmem.2
  cases hc : st.get_chunk p.1 with
  | some chunk => rfl
  | none =>
    rw [hc] at h2
    simp at h2

/-- C4 counterexample: an unfiltered registry search happily returns an id
whose chunk is gone from the store.  Concretely: the registry still holds a
linear/euclidean index over vector `[0]` with id `"c1"`, the store's chunk
table is empty, and `search("L", [0], k=1)` returns `[("c1", 1.0)]`. -/
theorem search_no_filter_keeps_deleted_id :
    ((searchOp ⟨⟨[], [], []⟩,
        ⟨[("L", .linear ⟨"euclidean", [[0]], ["c1"]⟩)],
          [("L", ("linear", "euclidean"))]⟩⟩ "L" [0] 1 []).1
      = .ok [("c1", 1)]) ∧
    (⟨[], [], []⟩ : Store).get_chunk "c1" = none := by
  constructor
  · have hq : ∀ k : ℤ, 0 < k →
        LinearIndex.query ⟨"euclidean", [[0]], ["c1"]⟩ [0] k = .ok [("c1", 1)] := by
      intro k hk
      unfold LinearIndex.query
      rw [if_neg (by simp; omega)]
      rw [if_neg (by simp)]
      rw [if_neg (by decide)]
      have hd : euclidean_distance [0] [(0 : ℝ)] = 0 := by
        simp [euclidean_distance, List.zip]
      rw [show ((["c1"].zip [[(0 : ℝ)]]).map fun p =>
            (p.1, 1 / (1 + euclidean_distance [0] p.2)))
          = [("c1", (1 : ℝ))] by simp [List.zip, hd]]
      show (Except.ok ((sortByScoreDesc [("c1", (1 : ℝ))]).take k.toNat)
        : Except QueryError _) = .ok [("c1", 1)]
      rw [show sortByScoreDesc [("c1", (1 : ℝ))] = [("c1", (1 : ℝ))] from rfl]
      rw [List.take_of_length_le (by simp; omega)]
    unfold searchOp
    rw [if_neg (by norm_num)]
    rw [show getOrCreateIndex ⟨⟨[], [], []⟩,
        ⟨[("L", .linear ⟨"euclidean", [[0]], ["c1"]⟩)],
          [("L", ("linear", "euclidean"))]⟩⟩ "L"
      = (some (.linear ⟨"euclidean", [[0]], ["c1"]⟩),
         ⟨⟨[], [], []⟩, ⟨[("L", .linear ⟨"euclidean", [[0]], ["c1"]⟩)],
          [("L", ("linear", "euclidean"))]⟩⟩) from rfl]
    dsimp only [BuiltIndex.query]
    rw [show calculate_query_k 1 (!(List.isEmpty ([] : List (String × String)))) = 3
      from by decide]
    rw [hq 3 (by norm_num)]
    rfl
  · rfl

/-- C4 amended: when metadata filters are given, every id in the returned
list still names a chunk present in the store's chunk table at search time
(`_apply_metadata_filters` drops ids whose chunk has been deleted); the
unfiltered path performs no such check. -/
theorem search_with_filters_skips_deleted (sys : SystemState) (library_id : String)
    (vector : List ℝ) (k : ℤ) (filters : List (String × String))
    (res : List (String × ℝ))
    (hf : filters ≠ [])
    (hres : (searchOp sys library_id vector k filters).1 = .ok res) :
    ∀ p ∈ res, (sys.store.get_chunk p.1).isSome := by
  intro p hp
  unfold searchOp at hres
  by_cases hk : k ≤ 0
  · rw [if_pos hk] at hres
    simp only [Except.ok.injEq] at hres
    rw [← hres] at hp
    simp at hp
  · rw [if_neg hk] at hres
    have hstore := getOrCreateIndex_store sys library_id
    cases hg : getOrCreateIndex sys library_id with
    | mk oidx sys' =>
      rw [hg] at hres hstore
      cases oidx with
      | none =>
        simp only [Except.ok.injEq] at hres
        rw [← hres] at hp
        simp at hp
      | some index =>
        dsimp only at hres
        cases hqr : index.query vector
            (calculate_query_k k (!filters.isEmpty)) with
        | error e => rw [hqr] at hres; exact absurd hres (by simp)
        | ok results =>
          rw [hqr] at hres
          have hfe : filters.isEmpty = false := by
            cases filters with
            | nil => exact absurd rfl hf
            | cons a b => rfl
          rw [hfe] at hres
          simp only [Bool.false_eq_true, if_false, Except.ok.injEq] at hres
          rw [← hres] at hp
          have hp2 := List.mem_of_mem_take hp
          rw [← hstore]
          exact mem_applyMetadataFilters sys'.store results filters p hp2

theorem search_with_filters_skips_deleted_witness :
    ([("lang", "en")] : List (String × String)) ≠ [] ∧
    (searchOp ⟨⟨[], [], [("c1", ⟨"c1", "D1", "t", [0], [("lang", "en")]⟩)]⟩,
        ⟨[("L", .linear ⟨"euclidean", [[0]], ["c1"]⟩)],
          [("L", ("linear", "euclidean"))]⟩⟩ "L" [0] 1 [("lang", "en")]).1
      = .ok [("c1", (1 : ℝ))] ∧
    ((⟨⟨[], [], [("c1", ⟨"c1", "D1", "t", [0], [("lang", "en")]⟩)]⟩,
        ⟨[("L", .linear ⟨"euclidean", [[0]], ["c1"]⟩)],
          [("L", ("linear", "euclidean"))]⟩⟩ : SystemState).store.get_chunk
        "c1").isSome := by
  have hq : LinearIndex.query ⟨"euclidean", [[0]], ["c1"]⟩ [0] 6 = .ok [("c1", 1)] := by
    unfold LinearIndex.query
    rw [if_neg (by simp)]
    rw [if_neg (by simp)]
    rw [if_neg (by decide)]
    have hd : euclidean_distance [0] [(0 : ℝ)] = 0 := by
      simp [euclidean_distance, List.zip]
    rw [show ((["c1"].zip [[(0 : ℝ)]]).map fun p =>
          (p.1, 1 / (1 + euclidean_distance [0] p.2)))
        = [("c1", (1 : ℝ))] by simp [List.zip, hd]]
    show (Except.ok ((sortByScoreDesc [("c1", (1 : ℝ))]).take (Int.toNat 6))
      : Except QueryError _) = .ok [("c1", 1)]
    rw [show sortByScoreDesc [("c1", (1 : ℝ))] = [("c1", (1 : ℝ))] from rfl]
    rw [List.take_of_length_le (by simp)]
  have hsearch : (searchOp ⟨⟨[], [],
      [("c1", ⟨"c1", "D1", "t", [0], [("lang", "en")]⟩)]⟩,
        ⟨[("L", .linear ⟨"euclidean", [[0]], ["c1"]⟩)],
          [("L", ("linear", "euclidean"))]⟩⟩ "L" [0] 1 [("lang", "en")]).1
      = .ok [("c1", (1 : ℝ))] := by
    unfold searchOp
    rw [if_neg (by norm_num)]
    rw [show getOrCreateIndex ⟨⟨[], [], [("c1", ⟨"c1", "D1", "t", [0], [("lang", "en")]⟩)]⟩,
        ⟨[("L", .linear ⟨"euclidean", [[0]], ["c1"]⟩)],
          [("L", ("linear", "euclidean"))]⟩⟩ "L"
      = (some (.linear ⟨"euclidean", [[0]], ["c1"]⟩),
         ⟨⟨[], [], [("c1", ⟨"c1", "D1", "t", [0], [("lang", "en")]⟩)]⟩,
          ⟨[("L", .linear ⟨"euclidean", [[0]], ["c1"]⟩)],
            [("L", ("linear", "euclidean"))]⟩⟩) from rfl]
    dsimp only [BuiltIndex.query]
    rw [show calculate_query_k 1
        (!(List.isEmpty [("lang", "en")])) = 6 from by decide]
    rw [hq]
    rfl
  exact ⟨by simp, hsearch,
    search_with_filters_skips_deleted _ "L" [0] 1 [("lang", "en")] _ (by simp)
      hsearch ("c1", 1) (List.mem_cons_self _ _)⟩

/-! ## Heap lemmas: the bounded `heapq` of the KD-tree query -/

theorem entryLe_fst {a b : ℝ × String} (h : entryLe a b) : a.1 ≤ b.1 := by
  rcases h with h | ⟨h, _⟩
  · exact le_of_lt h
  · exact le_of_eq h

theorem heapPush_sorted {k : ℤ} (e : ℝ × String) {h : List (ℝ × String)}
    (hs : List.Sorted entryLe h) : List.Sorted entryLe (heapPush k e h) := by
  unfold heapPush
  have hins : List.Sorted entryLe (List.orderedInsert entryLe e h) :=
    List.Sorted.orderedInsert e h hs
  by_cases hc : ((List.orderedInsert entryLe e h).length : ℤ) > k
  · rw [if_pos hc]
    exact hins.sublist (List.tail_sublist _)
  · rw [if_neg hc]
    exact hins

theorem heapPush_length {k' : ℕ} (e : ℝ × String) (h : List (ℝ × String))
    (hlen : h.length ≤ k') :
    (heapPush (k' : ℤ) e h).length = min (h.length + 1) k' := by
  unfold heapPush
  by_cases hc : ((List.orderedInsert entryLe e h).length : ℤ) > (k' : ℤ)
  · rw [if_pos hc]
    rw [List.orderedInsert_length] at hc
    rw [List.length_tail, List.orderedInsert_length]
    omega
  · rw [if_neg hc]
    rw [List.orderedInsert_length] at hc ⊢
    omega

theorem heapPush_subperm (k : ℤ) (e : ℝ × String) (h : List (ℝ × String)) :
    List.Subperm (heapPush k e h) (e :: h) := by
  unfold heapPush
  by_cases hc : ((List.orderedInsert entryLe e h).length : ℤ) > k
  · rw [if_pos hc]
    exact ((List.tail_sublist _).subperm).trans
      (List.perm_orderedInsert entryLe e h).subperm
  · rw [if_neg hc]
    exact (List.perm_orderedInsert entryLe e h).subperm

theorem heapPush_dropped {k' : ℕ} (hk : 1 ≤ k') {e x : ℝ × String}
    {h : List (ℝ × String)} (hs : List.Sorted entryLe h) (hlen : h.length ≤ k')
    (hx : x ∈ e :: h) (hnx : x ∉ heapPush (k' : ℤ) e h) :
    (heapPush (k' : ℤ) e h).length = k' ∧
      x.1 ≤ ((heapPush (k' : ℤ) e h).headD ((0 : ℝ), "")).1 := by
  have hxh : x ∈ List.orderedInsert entryLe e h :=
    ((List.perm_orderedInsert entryLe e h).mem_iff).2 hx
  have hsort : List.Sorted entryLe (List.orderedInsert entryLe e h) :=
    List.Sorted.orderedInsert e h hs
  have hlen' : (List.orderedInsert entryLe e h).length = h.length + 1 :=
    List.orderedInsert_length entryLe h e
  unfold heapPush at hnx ⊢
  by_cases hc : ((List.orderedInsert entryLe e h).length : ℤ) > (k' : ℤ)
  · rw [if_pos hc] at hnx ⊢
    cases hcons : List.orderedInsert entryLe e h with
    | nil => rw [hcons] at hxh; simp at hxh
    | cons a tl =>
      rw [hcons] at hxh hsort hlen' hc hnx
      simp only [List.tail_cons] at hnx ⊢
      have hxa : x = a := by
        rcases List.mem_cons.1 hxh with h1 | h1
        · exact h1
        · exact absurd h1 hnx
      simp only [List.length_cons] at hc
      constructor
      · simp only [List.length_cons] at hlen'
        omega
      · subst hxa
        cases tl with
        | nil =>
          exfalso
          simp only [List.length_nil] at hc
          omega
        | cons b tl' =>
          exact entryLe_fst ((List.sorted_cons.1 hsort).1 b (List.mem_cons_self _ _))
  · rw [if_neg hc] at hnx
    exact absurd hxh hnx

theorem heapPush_full_head {k' : ℕ} (hk : 1 ≤ k') {e : ℝ × String}
    {h : List (ℝ × String)} (hs : List.Sorted entryLe h) (hfull : h.length = k') :
    (heapPush (k' : ℤ) e h).length = k' ∧
      (h.headD ((0 : ℝ), "")).1 ≤ ((heapPush (k' : ℤ) e h).headD ((0 : ℝ), "")).1 := by
  refine ⟨by rw [heapPush_length e h (le_of_eq hfull)]; omega, ?_⟩
  unfold heapPush
  have hc : ((List.orderedInsert entryLe e h).length : ℤ) > (k' : ℤ) := by
    rw [List.orderedInsert_length]
    omega
  rw [if_pos hc]
  cases h with
  | nil => simp at hfull; omega
  | cons hh ht =>
    by_cases he : entryLe e hh
    · rw [List.orderedInsert, if_pos he]
      simp
    · rw [List.orderedInsert, if_neg he]
      simp only [List.tail_cons, List.headD_cons]
      have hle : entryLe hh e := (entryLe_total e hh).resolve_left he
      cases ht with
      | nil => exact entryLe_fst hle
      | cons b tl' =>
        rw [List.orderedInsert]
        by_cases heb : entryLe e b
        · rw [if_pos heb]
          exact entryLe_fst hle
        · rw [if_neg heb]
          exact entryLe_fst (List.rel_of_sorted_cons hs b (List.mem_cons_self _ _))

/-! ## KD-tree query lemmas -/

theorem kd_query_sorted (target : List ℝ) (k : ℤ) :
    ∀ (T : KDNode) (h : List (ℝ × String)), List.Sorted entryLe h →
      List.Sorted entryLe (kd_query target k T h) := by
  intro T
  induction T with
  | nil => intro h hs; simpa [kd_query] using hs
  | node p pid ax l r ihl ihr =>
    intro h hs
    simp only [kd_query]
    by_cases hd : target.getD ax 0 - p.getD ax 0 < 0
    · rw [if_pos hd]
      split
      · exact ihr _ (ihl _ (heapPush_sorted _ hs))
      · exact ihl _ (heapPush_sorted _ hs)
    · rw [if_neg hd]
      split
      · exact ihl _ (ihr _ (heapPush_sorted _ hs))
      · exact ihr _ (heapPush_sorted _ hs)

theorem elems_node_length (p : List ℝ) (pid : String) (ax : ℕ) (l r : KDNode) :
    (KDNode.node p pid ax l r).elems.length
      = l.elems.length + 1 + r.elems.length := by
  simp [KDNode.elems]
  omega

theorem kd_query_length {k' : ℕ} (hk : 1 ≤ k') (target : List ℝ) :
    ∀ (T : KDNode) (h : List (ℝ × String)), h.length ≤ k' →
      (kd_query target (k' : ℤ) T h).length
        = min (h.length + T.elems.length) k' := by
  intro T
  induction T with
  | nil =>
    intro h hl
    simp only [kd_query, KDNode.elems, List.length_nil]
    omega
  | node p pid ax l r ihl ihr =>
    intro h hl
    have hE := elems_node_length p pid ax l r
    simp only [kd_query]
    have h1len : (heapPush (k' : ℤ) (-euclidean_distance target p, pid) h).length
        = min (h.length + 1) k' :=
      heapPush_length _ _ hl
    have h1le : (heapPush (k' : ℤ) (-euclidean_distance target p, pid) h).length ≤ k' := by
      omega
    by_cases hd : target.getD ax 0 - p.getD ax 0 < 0
    · rw [if_pos hd]
      have h2 := ihl _ h1le
      have h2le : (kd_query target (k' : ℤ) l
          (heapPush (k' : ℤ) (-euclidean_distance target p, pid) h)).length ≤ k' := by
        omega
      split
      · rw [ihr _ h2le, h2, h1len, hE]
        omega
      · next hcond =>
        push_neg at hcond
        obtain ⟨hc1, _⟩ := hcond
        rw [h2, h1len] at hc1 ⊢
        rw [hE]
        omega
    · rw [if_neg hd]
      have h2 := ihr _ h1le
      have h2le : (kd_query target (k' : ℤ) r
          (heapPush (k' : ℤ) (-euclidean_distance target p, pid) h)).length ≤ k' := by
        omega
      split
      · rw [ihl _ h2le, h2, h1len, hE]
        omega
      · next hcond =>
        push_neg at hcond
        obtain ⟨hc1, _⟩ := hcond
        rw [h2, h1len] at hc1 ⊢
        rw [hE]
        omega

theorem kd_query_length_le {k' : ℕ} (hk : 1 ≤ k') (target : List ℝ)
    (T : KDNode) (h : List (ℝ × String)) (hl : h.length ≤ k') :
    (kd_query target (k' : ℤ) T h).length ≤ k' := by
  rw [kd_query_length hk target T h hl]
  omega

theorem pushes_node (target : List ℝ) (p : List ℝ) (pid : String) (ax : ℕ)
    (l r : KDNode) :
    (KDNode.node p pid ax l r).pushes target
      = l.pushes target ++ (-euclidean_distance target p, pid) :: r.pushes target := by
  simp [KDNode.pushes, KDNode.elems]

theorem kd_query_mset (target : List ℝ) (k : ℤ) :
    ∀ (T : KDNode) (h : List (ℝ × String)),
      (kd_query target k T h : Multiset (ℝ × String))
        ≤ (h : Multiset (ℝ × String)) + (T.pushes target : Multiset (ℝ × String)) := by
  intro T
  induction T with
  | nil =>
    intro h
    simp [kd_query, KDNode.pushes, KDNode.elems]
  | node p pid ax l r ihl ihr =>
    intro h
    have hsplit : ((KDNode.node p pid ax l r).pushes target : Multiset (ℝ × String))
        = (l.pushes target : Multiset (ℝ × String))
          + ((-euclidean_distance target p, pid)
            ::ₘ (r.pushes target : Multiset (ℝ × String))) := by
      rw [pushes_node, Multiset.cons_coe, Multiset.coe_add]
    have hpush : (heapPush k (-euclidean_distance target p, pid) h
        : Multiset (ℝ × String))
        ≤ (-euclidean_distance target p, pid) ::ₘ (h : Multiset (ℝ × String)) := by
      rw [Multiset.cons_coe]
      exact Multiset.coe_le.2 (heapPush_subperm _ _ _)
    simp only [kd_query]
    by_cases hd : target.getD ax 0 - p.getD ax 0 < 0
    · rw [if_pos hd]
      split
      · calc (kd_query target k r (kd_query target k l
              (heapPush k (-euclidean_distance target p, pid) h))
            : Multiset (ℝ × String))
            ≤ (kd_query target k l (heapPush k (-euclidean_distance target p, pid) h)
                : Multiset (ℝ × String)) + (r.pushes target : Multiset _) := ihr _
          _ ≤ ((heapPush k (-euclidean_distance target p, pid) h : Multiset _)
                + (l.pushes target : Multiset _)) + (r.pushes target : Multiset _) :=
              add_le_add_right (ihl _) _
          _ ≤ (((-euclidean_distance target p, pid) ::ₘ (h : Multiset _))
                + (l.pushes target : Multiset _)) + (r.pushes target : Multiset _) :=
              add_le_add_right (add_le_add_right hpush _) _
          _ = (h : Multiset (ℝ × String))
                + ((KDNode.node p pid ax l r).pushes target : Multiset _) := by
              rw [hsplit]
              simp only [← Multiset.singleton_add]
              abel
      · calc (kd_query target k l (heapPush k (-euclidean_distance target p, pid) h)
            : Multiset (ℝ × String))
            ≤ (heapPush k (-euclidean_distance target p, pid) h : Multiset _)
                + (l.pushes target : Multiset _) := ihl _
          _ ≤ (((-euclidean_distance target p, pid) ::ₘ (h : Multiset _))
                + (l.pushes target : Multiset _)) + (r.pushes target : Multiset _) :=
              le_trans (add_le_add_right hpush _) (self_le_add_right _ _)
          _ = (h : Multiset (ℝ × String))
                + ((KDNode.node p pid ax l r).pushes target : Multiset _) := by
              rw [hsplit]
              simp only [← Multiset.singleton_add]
              abel
    · rw [if_neg hd]
      split
      · calc (kd_query target k l (kd_query target k r
              (heapPush k (-euclidean_distance target p, pid) h))
            : Multiset (ℝ × String))
            ≤ (kd_query target k r (heapPush k (-euclidean_distance target p, pid) h)
                : Multiset (ℝ × String)) + (l.pushes target : Multiset _) := ihl _
          _ ≤ ((heapPush k (-euclidean_distance target p, pid) h : Multiset _)
                + (r.pushes target : Multiset _)) + (l.pushes target : Multiset _) :=
              add_le_add_right (ihr _) _
          _ ≤ (((-euclidean_distance target p, pid) ::ₘ (h : Multiset _))
                + (r.pushes target : Multiset _)) + (l.pushes target : Multiset _) :=
              add_le_add_right (add_le_add_right hpush _) _
          _ = (h : Multiset (ℝ × String))
                + ((KDNode.node p pid ax l r).pushes target : Multiset _) := by
              rw [hsplit]
              simp only [← Multiset.singleton_add]
              abel
      · calc (kd_query target k r (heapPush k (-euclidean_distance target p, pid) h)
            : Multiset (ℝ × String))
            ≤ (heapPush k (-euclidean_distance target p, pid) h : Multiset _)
                + (r.pushes target : Multiset _) := ihr _
          _ ≤ (((-euclidean_distance target p, pid) ::ₘ (h : Multiset _))
                + (r.pushes target : Multiset _)) + (l.pushes target : Multiset _) :=
              le_trans (add_le_add_right hpush _) (self_le_add_right _ _)
          _ = (h : Multiset (ℝ × String))
                + ((KDNode.node p pid ax l r).pushes target : Multiset _) := by
              rw [hsplit]
              simp only [← Multiset.singleton_add]
              abel

theorem kd_query_full_head {k' : ℕ} (hk : 1 ≤ k') (target : List ℝ) :
    ∀ (T : KDNode) (h : List (ℝ × String)), List.Sorted entryLe h → h.length = k' →
      (kd_query target (k' : ℤ) T h).length = k' ∧
        (h.headD ((0 : ℝ), "")).1
          ≤ ((kd_query target (k' : ℤ) T h).headD ((0 : ℝ), "")).1 := by
  intro T
  induction T with
  | nil => intro h hs hf; exact ⟨hf, le_refl _⟩
  | node p pid ax l r ihl ihr =>
    intro h hs hf
    have hp := heapPush_full_head hk (e := (-euclidean_distance target p, pid)) hs hf
    have hps : List.Sorted entryLe
        (heapPush (k' : ℤ) (-euclidean_distance target p, pid) h) :=
      heapPush_sorted _ hs
    simp only [kd_query]
    by_cases hd : target.getD ax 0 - p.getD ax 0 < 0
    · rw [if_pos hd]
      have h2 := ihl _ hps hp.1
      have h2s := kd_query_sorted target (k' : ℤ) l _ hps
      split
      · have h3 := ihr _ h2s h2.1
        exact ⟨h3.1, le_trans hp.2 (le_trans h2.2 h3.2)⟩
      · exact ⟨h2.1, le_trans hp.2 h2.2⟩
    · rw [if_neg hd]
      have h2 := ihr _ hps hp.1
      have h2s := kd_query_sorted target (k' : ℤ) r _ hps
      split
      · have h3 := ihl _ h2s h2.1
        exact ⟨h3.1, le_trans hp.2 (le_trans h2.2 h3.2)⟩
      · exact ⟨h2.1, le_trans hp.2 h2.2⟩

theorem WFdim_elems {D : ℕ} :
    ∀ {T : KDNode}, T.WFdim D → ∀ q ∈ T.elems, q.1.length = D := by
  intro T
  induction T with
  | nil => intro _ q hq; simp [KDNode.elems] at hq
  | node p pid ax l r ihl ihr =>
    intro hw q hq
    obtain ⟨hp, hax, hl, hr⟩ := hw
    simp only [KDNode.elems, List.mem_append, List.mem_cons] at hq
    rcases hq with h1 | h1 | h1
    · exact ihl hl q h1
    · rw [h1]; exact hp
    · exact ihr hr q h1

/-- A single coordinate difference bounds the Euclidean distance from below
(for vectors of a common dimension `D` and an axis inside it). -/
theorem dist_ge_coord {a b : List ℝ} {D ax : ℕ} (ha : a.length = D)
    (hb : b.length = D) (hax : ax < D) :
    |a.getD ax 0 - b.getD ax 0| ≤ euclidean_distance a b := by
  have hza : ax < a.length := by omega
  have hzb : ax < b.length := by omega
  have hz : ax < (a.zip b).length := by
    rw [List.length_zip]; omega
  have hga : a.getD ax 0 = a[ax] := List.getD_eq_getElem a 0 hza
  have hgb : b.getD ax 0 = b[ax] := List.getD_eq_getElem b 0 hzb
  have hmem : ((a[ax] : ℝ) - b[ax]) ^ 2
      ∈ (a.zip b).map fun p => (p.1 - p.2) ^ 2 := by
    refine List.mem_map.2 ⟨(a.zip b).get ⟨ax, hz⟩, List.get_mem _ _ hz, ?_⟩
    simp [List.getElem_zip]
  have hnn : ∀ y ∈ (a.zip b).map fun p => (p.1 - p.2) ^ 2, (0 : ℝ) ≤ y := by
    intro y hy
    obtain ⟨pq, _, rfl⟩ := List.mem_map.1 hy
    positivity
  have hsum : ((a[ax] : ℝ) - b[ax]) ^ 2
      ≤ ((a.zip b).map fun p => (p.1 - p.2) ^ 2).sum :=
    List.single_le_sum hnn _ hmem
  unfold euclidean_distance
  calc |a.getD ax 0 - b.getD ax 0|
      = Real.sqrt ((a.getD ax 0 - b.getD ax 0) ^ 2) := (Real.sqrt_sq_eq_abs _).symm
    _ ≤ Real.sqrt (((a.zip b).map fun p => (p.1 - p.2) ^ 2).sum) :=
        Real.sqrt_le_sqrt (by rw [hga, hgb]; exact hsum)

/-- Geometry of the pruning test: a point on the far side of the splitting
plane is at least `|diff|` away from the query. -/
theorem prune_key_le {D ax : ℕ} {target p v : List ℝ} (htl : target.length = D)
    (hvl : v.length = D) (hax : ax < D)
    (hside : (target.getD ax 0 - p.getD ax 0 < 0 ∧ p.getD ax 0 ≤ v.getD ax 0) ∨
      (¬ target.getD ax 0 - p.getD ax 0 < 0 ∧ v.getD ax 0 ≤ p.getD ax 0)) :
    |target.getD ax 0 - p.getD ax 0| ≤ euclidean_distance target v := by
  have hd := dist_ge_coord htl hvl hax
  rcases hside with ⟨h1, h2⟩ | ⟨h1, h2⟩
  · have hb : |target.getD ax 0 - p.getD ax 0|
        ≤ |target.getD ax 0 - v.getD ax 0| := by
      rw [abs_of_neg h1, abs_of_neg (by linarith : target.getD ax 0 - v.getD ax 0 < 0)]
      linarith
    linarith
  · rw [not_lt] at h1
    have hb : |target.getD ax 0 - p.getD ax 0|
        ≤ |target.getD ax 0 - v.getD ax 0| := by
      rw [abs_of_nonneg h1, abs_of_nonneg (by linarith : (0:ℝ) ≤ target.getD ax 0 - v.getD ax 0)]
      linarith
    linarith

/-- Completeness of the bounded-heap descent: an entry that was in the heap
or pushed (or prunes away) but is absent from the result can only have been
evicted, which requires a full result whose minimum key dominates it. -/
theorem kd_query_complete {k' D : ℕ} (hk : 1 ≤ k') {target : List ℝ}
    (htl : target.length = D) :
    ∀ (T : KDNode), T.Inv → T.WFdim D →
      ∀ (h : List (ℝ × String)), List.Sorted entryLe h → h.length ≤ k' →
        ∀ x : ℝ × String, (x ∈ h ∨ x ∈ T.pushes target) →
          x ∉ kd_query target (k' : ℤ) T h →
          (kd_query target (k' : ℤ) T h).length = k' ∧
            x.1 ≤ ((kd_query target (k' : ℤ) T h).headD ((0 : ℝ), "")).1 := by
  intro T
  induction T with
  | nil =>
    intro _ _ h _ _ x hx hnx
    simp only [kd_query] at hnx
    rcases hx with hx | hx
    · exact absurd hx hnx
    · simp [KDNode.pushes, KDNode.elems] at hx
  | node p pid ax l r ihl ihr =>
    intro hinv hw h hs hlen x horig hnx
    obtain ⟨hIl, hIr, hil, hir⟩ := hinv
    obtain ⟨hp, hax, hwl, hwr⟩ := hw
    simp only [kd_query] at hnx ⊢
    set h1 : List (ℝ × String) :=
      heapPush (k' : ℤ) (-euclidean_distance target p, pid) h with hh1
    have h1s : List.Sorted entryLe h1 := heapPush_sorted _ hs
    have h1l : h1.length ≤ k' := by
      rw [hh1, heapPush_length _ _ hlen]; omega
    by_cases hd : target.getD ax 0 - p.getD ax 0 < 0
    · rw [if_pos hd] at hnx ⊢
      set h2 : List (ℝ × String) := kd_query target (k' : ℤ) l h1 with hh2
      have h2s : List.Sorted entryLe h2 := kd_query_sorted target _ l h1 h1s
      have h2l : h2.length ≤ k' := kd_query_length_le hk target l h1 h1l
      have hstep : x ∉ h2 → x ∉ r.pushes target →
          h2.length = k' ∧ x.1 ≤ (h2.headD ((0 : ℝ), "")).1 := by
        intro hx2 hxr
        by_cases hx1 : x ∈ h1
        · exact ihl hil hwl h1 h1s h1l x (Or.inl hx1) hx2
        · have hdrop : x ∈ (-euclidean_distance target p, pid) :: h →
              h2.length = k' ∧ x.1 ≤ (h2.headD ((0 : ℝ), "")).1 := by
            intro hxin
            have hdp := heapPush_dropped hk hs hlen hxin (by rw [← hh1]; exact hx1)
            rw [← hh1] at hdp
            have hq4 := kd_query_full_head hk target l h1 h1s hdp.1
            exact ⟨hq4.1, le_trans hdp.2 hq4.2⟩
          rcases horig with hxh | hxp
          · exact hdrop (List.mem_cons_of_mem _ hxh)
          · rw [pushes_node] at hxp
            rcases List.mem_append.1 hxp with hxl | hxer
            · exact ihl hil hwl h1 h1s h1l x (Or.inr hxl) hx2
            · rcases List.mem_cons.1 hxer with hxe | hxr'
              · exact hdrop (by rw [hxe]; exact List.mem_cons_self _ _)
              · exact absurd hxr' hxr
      by_cases hcond : ((h2.length : ℤ) < (k' : ℤ) ∨
          |target.getD ax 0 - p.getD ax 0| < -(h2.headD ((0:ℝ), "")).1)
      · rw [if_pos hcond] at hnx ⊢
        by_cases hx2 : x ∈ h2
        · exact ihr hir hwr h2 h2s h2l x (Or.inl hx2) hnx
        · by_cases hxr : x ∈ r.pushes target
          · exact ihr hir hwr h2 h2s h2l x (Or.inr hxr) hnx
          · obtain ⟨hfull, hle⟩ := hstep hx2 hxr
            have hq4 := kd_query_full_head hk target r h2 h2s hfull
            exact ⟨hq4.1, le_trans hle hq4.2⟩
      · rw [if_neg hcond] at hnx ⊢
        push_neg at hcond
        obtain ⟨hc1, hc2⟩ := hcond
        have h2full : h2.length = k' := by omega
        refine ⟨h2full, ?_⟩
        by_cases hxr : x ∈ r.pushes target
        · obtain ⟨q, hq, hxq⟩ := List.mem_map.1 (by simp only [KDNode.pushes] at hxr; exact hxr)
          have hql : q.1.length = D := WFdim_elems hwr q hq
          have hgeo := prune_key_le htl hql hax (Or.inl ⟨hd, hIr q hq⟩)
          have hx1eq : x.1 = -euclidean_distance target q.1 := by rw [← hxq]
          rw [hx1eq]
          linarith
        · exact (hstep hnx hxr).2
    · rw [if_neg hd] at hnx ⊢
      set h2 : List (ℝ × String) := kd_query target (k' : ℤ) r h1 with hh2
      have h2s : List.Sorted entryLe h2 := kd_query_sorted target _ r h1 h1s
      have h2l : h2.length ≤ k' := kd_query_length_le hk target r h1 h1l
      have hstep : x ∉ h2 → x ∉ l.pushes target →
          h2.length = k' ∧ x.1 ≤ (h2.headD ((0 : ℝ), "")).1 := by
        intro hx2 hxl
        by_cases hx1 : x ∈ h1
        · exact ihr hir hwr h1 h1s h1l x (Or.inl hx1) hx2
        · have hdrop : x ∈ (-euclidean_distance target p, pid) :: h →
              h2.length = k' ∧ x.1 ≤ (h2.headD ((0 : ℝ), "")).1 := by
            intro hxin
            have hdp := heapPush_dropped hk hs hlen hxin (by rw [← hh1]; exact hx1)
            rw [← hh1] at hdp
            have hq4 := kd_query_full_head hk target r h1 h1s hdp.1
            exact ⟨hq4.1, le_trans hdp.2 hq4.2⟩
          rcases horig with hxh | hxp
          · exact hdrop (List.mem_cons_of_mem _ hxh)
          · rw [pushes_node] at hxp
            rcases List.mem_append.1 hxp with hxl' | hxer
            · exact absurd hxl' hxl
            · rcases List.mem_cons.1 hxer with hxe | hxr'
              · exact hdrop (by rw [hxe]; exact List.mem_cons_self _ _)
              · exact ihr hir hwr h1 h1s h1l x (Or.inr hxr') hx2
      by_cases hcond : ((h2.length : ℤ) < (k' : ℤ) ∨
          |target.getD ax 0 - p.getD ax 0| < -(h2.headD ((0:ℝ), "")).1)
      · rw [if_pos hcond] at hnx ⊢
        by_cases hx2 : x ∈ h2
        · exact ihl hil hwl h2 h2s h2l x (Or.inl hx2) hnx
        · by_cases hxl : x ∈ l.pushes target
          · exact ihl hil hwl h2 h2s h2l x (Or.inr hxl) hnx
          · obtain ⟨hfull, hle⟩ := hstep hx2 hxl
            have hq4 := kd_query_full_head hk target l h2 h2s hfull
            exact ⟨hq4.1, le_trans hle hq4.2⟩
      · rw [if_neg hcond] at hnx ⊢
        push_neg at hcond
        obtain ⟨hc1, hc2⟩ := hcond
        have h2full : h2.length = k' := by omega
        refine ⟨h2full, ?_⟩
        by_cases hxl : x ∈ l.pushes target
        · obtain ⟨q, hq, hxq⟩ := List.mem_map.1 (by simp only [KDNode.pushes] at hxl; exact hxl)
          have hql : q.1.length = D := WFdim_elems hwl q hq
          have hgeo := prune_key_le htl hql hax (Or.inr ⟨hd, hIl q hq⟩)
          have hx1eq : x.1 = -euclidean_distance target q.1 := by rw [← hxq]
          rw [hx1eq]
          linarith
        · exact (hstep hnx hxl).2

/-! ## build_kd lemmas -/

theorem build_kd_elems :
    ∀ (n : ℕ) (ps : List (List ℝ)) (ids : List String) (depth : ℕ),
      ps.length ≤ n → ps.length = ids.length →
      ((build_kd ps ids depth).elems).Perm (ps.zip ids) := by
  intro n
  induction n with
  | zero =>
    intro ps ids depth hn hlen
    have hps : ps = [] := List.length_eq_zero.1 (Nat.le_zero.1 hn)
    subst hps
    simp [build_kd, KDNode.elems]
  | succ n ih =>
    intro ps ids depth hn hlen
    cases ps with
    | nil => simp [build_kd, KDNode.elems]
    | cons p0 rest =>
      simp only [List.length_cons] at hn hlen
      simp only [build_kd, KDNode.elems]
      set ax := depth % p0.length with haxdef
      set combined := List.insertionSort
        (fun x y => x.1.getD ax 0 ≤ y.1.getD ax 0) ((p0 :: rest).zip ids)
        with hcombdef
      set median := combined.length / 2 with hmeddef
      have hclen : combined.length = rest.length + 1 := by
        rw [hcombdef, List.length_insertionSort, List.length_zip]
        simp only [List.length_cons]
        omega
      have hmlt : median < combined.length := by
        rw [hmeddef]
        exact Nat.div_lt_self (by omega) (by omega)
      have hgetD : combined.getD median ([], "") = combined[median] :=
        List.getD_eq_getElem combined ([], "") hmlt
      have hdecomp : combined
          = combined.take median ++ combined[median] :: combined.drop (median + 1) := by
        conv_lhs => rw [← List.take_append_drop median combined]
        rw [List.drop_eq_getElem_cons hmlt]
      have hlL : (combined.take median).length = median := by
        rw [List.length_take]; omega
      have ihL := ih ((combined.take median).map fun x => x.1)
        ((combined.take median).map fun x => x.2) (depth + 1)
        (by rw [List.length_map, hlL]; omega)
        (by rw [List.length_map, List.length_map])
      have ihR := ih ((combined.drop (median + 1)).map fun x => x.1)
        ((combined.drop (median + 1)).map fun x => x.2) (depth + 1)
        (by rw [List.length_map, List.length_drop]; omega)
        (by rw [List.length_map, List.length_map])
      have hzL : ((combined.take median).map fun x => x.1).zip
          ((combined.take median).map fun x => x.2) = combined.take median :=
        (List.zip_of_prod rfl rfl).symm
      have hzR : ((combined.drop (median + 1)).map fun x => x.1).zip
          ((combined.drop (median + 1)).map fun x => x.2)
          = combined.drop (median + 1) :=
        (List.zip_of_prod rfl rfl).symm
      rw [hzL] at ihL
      rw [hzR] at ihR
      rw [hgetD, Prod.mk.eta]
      refine (List.Perm.append ihL (List.Perm.cons combined[median] ihR)).trans ?_
      rw [← hdecomp, hcombdef]
      exact List.perm_insertionSort _ _

theorem build_kd_wfdim {D : ℕ} (hD : 0 < D) :
    ∀ (n : ℕ) (ps : List (List ℝ)) (ids : List String) (depth : ℕ),
      ps.length ≤ n → ps.length = ids.length → (∀ v ∈ ps, v.length = D) →
      (build_kd ps ids depth).WFdim D := by
  intro n
  induction n with
  | zero =>
    intro ps ids depth hn hlen hdim
    have hps : ps = [] := List.length_eq_zero.1 (Nat.le_zero.1 hn)
    subst hps
    simp [build_kd, KDNode.WFdim]
  | succ n ih =>
    intro ps ids depth hn hlen hdim
    cases ps with
    | nil => simp [build_kd, KDNode.WFdim]
    | cons p0 rest =>
      simp only [List.length_cons] at hn hlen
      have hp0 : p0.length = D := hdim p0 (List.mem_cons_self _ _)
      simp only [build_kd, KDNode.WFdim]
      set ax := depth % p0.length with haxdef
      set combined := List.insertionSort
        (fun x y => x.1.getD ax 0 ≤ y.1.getD ax 0) ((p0 :: rest).zip ids)
        with hcombdef
      set median := combined.length / 2 with hmeddef
      have hcperm : combined.Perm ((p0 :: rest).zip ids) := by
        rw [hcombdef]; exact List.perm_insertionSort _ _
      have hcmem : ∀ q ∈ combined, q.1.length = D := by
        intro q hq
        have := hcperm.subset hq
        exact hdim q.1 (List.of_mem_zip this).1
      have hclen : combined.length = rest.length + 1 := by
        rw [hcombdef, List.length_insertionSort, List.length_zip]
        simp only [List.length_cons]
        omega
      have hmlt : median < combined.length := by
        rw [hmeddef]
        exact Nat.div_lt_self (by omega) (by omega)
      have hgetD : combined.getD median ([], "") = combined[median] :=
        List.getD_eq_getElem combined ([], "") hmlt
      have hlL : (combined.take median).length = median := by
        rw [List.length_take]; omega
      refine ⟨?_, ?_, ?_, ?_⟩
      · rw [hgetD]
        exact hcmem _ (List.getElem_mem _)
      · rw [haxdef, hp0]
        exact Nat.mod_lt _ hD
      · exact ih _ _ (depth + 1)
          (by rw [List.length_map, hlL]; omega)
          (by rw [List.length_map, List.length_map])
          (by
            intro v hv
            obtain ⟨q, hq, rfl⟩ := List.mem_map.1 hv
            exact hcmem q ((List.take_subset _ _) hq))
      · exact ih _ _ (depth + 1)
          (by rw [List.length_map, List.length_drop]; omega)
          (by rw [List.length_map, List.length_map])
          (by
            intro v hv
            obtain ⟨q, hq, rfl⟩ := List.mem_map.1 hv
            exact hcmem q ((List.drop_subset _ _) hq))

theorem build_kd_inv :
    ∀ (n : ℕ) (ps : List (List ℝ)) (ids : List String) (depth : ℕ),
      ps.length ≤ n → ps.length = ids.length →
      (build_kd ps ids depth).Inv := by
  intro n
  induction n with
  | zero =>
    intro ps ids depth hn hlen
    have hps : ps = [] := List.length_eq_zero.1 (Nat.le_zero.1 hn)
    subst hps
    simp [build_kd, KDNode.Inv]
  | succ n ih =>
    intro ps ids depth hn hlen
    cases ps with
    | nil => simp [build_kd, KDNode.Inv]
    | cons p0 rest =>
      simp only [List.length_cons] at hn hlen
      simp only [build_kd, KDNode.Inv]
      set ax := depth % p0.length with haxdef
      set combined := List.insertionSort
        (fun x y => x.1.getD ax 0 ≤ y.1.getD ax 0) ((p0 :: rest).zip ids)
        with hcombdef
      set median := combined.length / 2 with hmeddef
      have hclen : combined.length = rest.length + 1 := by
        rw [hcombdef, List.length_insertionSort, List.length_zip]
        simp only [List.length_cons]
        omega
      have hmlt : median < combined.length := by
        rw [hmeddef]
        exact Nat.div_lt_self (by omega) (by omega)
      have hgetD : combined.getD median ([], "") = combined[median] :=
        List.getD_eq_getElem combined ([], "") hmlt
      have hdecomp : combined
          = combined.take median ++ combined[median] :: combined.drop (median + 1) := by
        conv_lhs => rw [← List.take_append_drop median combined]
        rw [List.drop_eq_getElem_cons hmlt]
      have hsorted : List.Sorted
          (fun x y => x.1.getD ax 0 ≤ y.1.getD ax 0) combined := by
        rw [hcombdef]
        exact List.sorted_insertionSort _ _
      rw [hdecomp] at hsorted
      have hsplit := List.pairwise_append.1 hsorted
      have hLle : ∀ q ∈ combined.take median,
          q.1.getD ax 0 ≤ combined[median].1.getD ax 0 := by
        intro q hq
        exact hsplit.2.2 q hq combined[median] (List.mem_cons_self _ _)
      have hRge : ∀ q ∈ combined.drop (median + 1),
          combined[median].1.getD ax 0 ≤ q.1.getD ax 0 := by
        intro q hq
        exact (List.pairwise_cons.1 hsplit.2.1).1 q hq
      have hlL : (combined.take median).length = median := by
        rw [List.length_take]; omega
      have hpL := build_kd_elems _ ((combined.take median).map fun x => x.1)
        ((combined.take median).map fun x => x.2) (depth + 1) (le_refl _)
        (by rw [List.length_map, List.length_map])
      have hpR := build_kd_elems _ ((combined.drop (median + 1)).map fun x => x.1)
        ((combined.drop (median + 1)).map fun x => x.2) (depth + 1) (le_refl _)
        (by rw [List.length_map, List.length_map])
      have hzL : ((combined.take median).map fun x => x.1).zip
          ((combined.take median).map fun x => x.2) = combined.take median :=
        (List.zip_of_prod rfl rfl).symm
      have hzR : ((combined.drop (median + 1)).map fun x => x.1).zip
          ((combined.drop (median + 1)).map fun x => x.2)
          = combined.drop (median + 1) :=
        (List.zip_of_prod rfl rfl).symm
      rw [hzL] at hpL
      rw [hzR] at hpR
      refine ⟨?_, ?_, ?_, ?_⟩
      · intro q hq
        rw [hgetD]
        exact hLle q (hpL.subset hq)
      · intro q hq
        rw [hgetD]
        exact hRge q (hpR.subset hq)
      · exact ih _ _ (depth + 1)
          (by rw [List.length_map, hlL]; omega)
          (by rw [List.length_map, List.length_map])
      · exact ih _ _ (depth + 1)
          (by rw [List.length_map, List.length_drop]; omega)
          (by rw [List.length_map, List.length_map])

/-! ## C1 assembly: KD-tree top-k versus brute force -/

theorem map_f_fst_nodup (target : List ℝ) (ps : List (List ℝ)) (ids : List String)
    (hlen : ps.length = ids.length)
    (hdist : (ps.map fun v => euclidean_distance target v).Nodup) :
    (((ps.zip ids).map fun a => (-euclidean_distance target a.1, a.2)).map
      Prod.fst).Nodup := by
  have h1 : ((ps.zip ids).map fun a => (-euclidean_distance target a.1, a.2)).map
        Prod.fst
      = ((ps.zip ids).map Prod.fst).map fun v => -euclidean_distance target v := by
    rw [List.map_map, List.map_map]
    exact List.map_congr_left fun a _ => rfl
  rw [h1, List.map_fst_zip ps ids (le_of_eq hlen)]
  have h2 : ps.map (fun v => -euclidean_distance target v)
      = (ps.map fun v => euclidean_distance target v).map Neg.neg := by
    rw [List.map_map]
    exact List.map_congr_left fun a _ => rfl
  rw [h2]
  exact hdist.map neg_injective

/-- The heap produced by `kd_query` from an empty heap holds exactly the
`(-distance, id)` entries of the `k` distance-smallest points, when all
distances to the query are pairwise distinct. -/
theorem kd_query_toFinset_eq {D k' : ℕ} (hD : 0 < D) (hk : 1 ≤ k')
    (ps : List (List ℝ)) (ids : List String) (target : List ℝ)
    (hlen : ps.length = ids.length) (hdim : ∀ v ∈ ps, v.length = D)
    (htl : target.length = D)
    (hdist : (ps.map fun v => euclidean_distance target v).Nodup) :
    (kd_query target (k' : ℤ) (build_kd ps ids 0) []).toFinset
      = (((List.insertionSort
            (fun a b => euclidean_distance target a.1 ≤ euclidean_distance target b.1)
            (ps.zip ids)).take k').map
          fun a => (-euclidean_distance target a.1, a.2)).toFinset := by
  set f : (List ℝ × String) → (ℝ × String) :=
    fun a => (-euclidean_distance target a.1, a.2) with hf
  set S := List.insertionSort
    (fun a b => euclidean_distance target a.1 ≤ euclidean_distance target b.1)
    (ps.zip ids) with hS
  set T := build_kd ps ids 0 with hT
  set H := kd_query target (k' : ℤ) T [] with hH
  have hSperm : S.Perm (ps.zip ids) := by
    rw [hS]; exact List.perm_insertionSort _ _
  have hSsort : List.Sorted
      (fun a b => euclidean_distance target a.1 ≤ euclidean_distance target b.1)
      S := by
    rw [hS]; exact List.sorted_insertionSort _ _
  have hSlen : S.length = ps.length := by
    rw [hS, List.length_insertionSort, List.length_zip]; omega
  have hel : T.elems.Perm (ps.zip ids) :=
    build_kd_elems ps.length ps ids 0 (le_refl _) hlen
  have hpushes : (T.pushes target).Perm ((ps.zip ids).map f) := by
    simp only [KDNode.pushes]
    exact hel.map f
  have hinv : T.Inv := build_kd_inv ps.length ps ids 0 (le_refl _) hlen
  have hwf : T.WFdim D := build_kd_wfdim hD ps.length ps ids 0 (le_refl _) hlen hdim
  have hfst : (((ps.zip ids).map f).map Prod.fst).Nodup :=
    map_f_fst_nodup target ps ids hlen hdist
  have hmnodup : ((ps.zip ids).map f).Nodup := List.Nodup.of_map Prod.fst hfst
  have hinj : ∀ x ∈ (ps.zip ids).map f, ∀ y ∈ (ps.zip ids).map f,
      x.1 = y.1 → x = y := by
    intro x hx y hy hxy
    exact List.inj_on_of_nodup_map hfst hx hy hxy
  have hHsub : H.Subperm ((ps.zip ids).map f) := by
    have h3 := kd_query_mset target (k' : ℤ) T []
    simp only [Multiset.coe_nil, zero_add] at h3
    exact (Multiset.coe_le.1 h3).trans hpushes.subperm
  have hHnodup : H.Nodup := by
    obtain ⟨l, hperm, hsl⟩ := hHsub
    exact hperm.nodup_iff.1 (hmnodup.sublist hsl)
  have hHlen : H.length = min ps.length k' := by
    have := kd_query_length hk target T [] (by simp)
    rw [← hH] at this
    rw [this, List.length_nil, hel.length_eq, List.length_zip]
    omega
  have hHsort : List.Sorted entryLe H := kd_query_sorted target _ T [] (by simp)
  -- completeness: every entry of the k smallest-distance points is in H
  have hcomplete : ∀ x ∈ (S.take k').map f, x ∈ H := by
    intro x hx
    by_contra hnx
    obtain ⟨a, haT, hfa⟩ := List.mem_map.1 hx
    have haS : a ∈ S := List.take_subset _ _ haT
    have hazip : a ∈ ps.zip ids := hSperm.subset haS
    have hxzip : x ∈ (ps.zip ids).map f := by
      rw [← hfa]; exact List.mem_map_of_mem f hazip
    have hxp : x ∈ T.pushes target := hpushes.mem_iff.2 hxzip
    obtain ⟨hfull, hxle⟩ := kd_query_complete hk htl T hinv hwf []
      (by simp) (by simp) x (Or.inr hxp) (by rw [← hH]; exact hnx)
    rw [← hH] at hfull hxle
    have hHne : H ≠ [] := by
      intro hcon
      rw [hcon] at hfull
      simp at hfull
      omega
    have hhd : H.headD ((0 : ℝ), "") ∈ H := by
      cases hEq : H with
      | nil => exact absurd hEq hHne
      | cons y t => rw [List.headD_cons]; exact List.mem_cons_self _ _
    have hhdzip : H.headD ((0 : ℝ), "") ∈ (ps.zip ids).map f := hHsub.subset hhd
    have hxlt : x.1 < (H.headD ((0 : ℝ), "")).1 := by
      rcases lt_or_eq_of_le hxle with h | h
      · exact h
      · exact absurd (hinj x hxzip _ hhdzip h ▸ hhd) hnx
    have hall : ∀ y ∈ H, x.1 < y.1 := by
      intro y hy
      cases hEq : H with
      | nil => rw [hEq] at hy; simp at hy
      | cons h0 t =>
        rw [hEq] at hy
        rw [hEq, List.headD_cons] at hxlt
        rcases List.mem_cons.1 hy with rfl | hyt
        · exact hxlt
        · have := List.rel_of_sorted_cons (by rw [hEq] at hHsort; exact hHsort) y hyt
          exact lt_of_lt_of_le hxlt (entryLe_fst this)
    -- counting: k' entries of strictly larger key sit among the mapped list,
    -- yet a's position in the ascending sort bounds them by its index
    obtain ⟨i, hi, hgi⟩ := List.mem_iff_getElem.1 haT
    have hilt : i < k' := by
      have := hi
      rw [List.length_take] at this
      omega
    have hiS : i < S.length := by
      have := hi
      rw [List.length_take] at this
      omega
    have hgiS : S[i] = a := by
      rw [List.getElem_take] at hgi
      exact hgi
    have hcnt1 : List.countP (fun y => decide (x.1 < y.1)) H = k' := by
      rw [List.countP_eq_length.2 (fun y hy => decide_eq_true (hall y hy))]
      exact hfull
    have hcnt2 : List.countP (fun y => decide (x.1 < y.1)) H
        ≤ List.countP (fun y => decide (x.1 < y.1)) (S.map f) := by
      refine List.Subperm.countP_le _ (hHsub.trans ?_)
      exact ((hSperm.map f).symm).subperm
    have hcnt3 : List.countP (fun y => decide (x.1 < y.1)) (S.map f)
        = List.countP ((fun y => decide (x.1 < y.1)) ∘ f) S :=
      List.countP_map _ f S
    have hSdec : S = S.take i ++ S[i] :: S.drop (i + 1) := by
      conv_lhs => rw [← List.take_append_drop i S]
      rw [List.drop_eq_getElem_cons hiS]
    have hdropsorted : List.Sorted
        (fun a b => euclidean_distance target a.1 ≤ euclidean_distance target b.1)
        (S.drop i) := hSsort.sublist (List.drop_sublist _ _)
    have hdropcons : S.drop i = S[i] :: S.drop (i + 1) :=
      List.drop_eq_getElem_cons hiS
    have hcnt4 : List.countP ((fun y => decide (x.1 < y.1)) ∘ f)
        (S[i] :: S.drop (i + 1)) = 0 := by
      rw [List.countP_eq_zero]
      intro b hb
      rcases List.mem_cons.1 hb with rfl | hbt
      · simp only [Function.comp_apply, decide_eq_true_eq, not_lt]
        rw [← hfa, hgiS]
      · simp only [Function.comp_apply, decide_eq_true_eq, not_lt]
        have hba := List.rel_of_sorted_cons (hdropcons ▸ hdropsorted) b hbt
        rw [hgiS] at hba
        rw [← hfa]
        simp only [hf]
        linarith
    have hcnt5 : List.countP ((fun y => decide (x.1 < y.1)) ∘ f) S ≤ i := by
      conv_lhs => rw [hSdec]
      rw [List.countP_append, hcnt4]
      have := List.countP_le_length ((fun y => decide (x.1 < y.1)) ∘ f)
        (l := S.take i)
      calc List.countP _ (S.take i) + 0 ≤ (S.take i).length + 0 := by
            exact Nat.add_le_add_right (List.countP_le_length _) 0
        _ ≤ i := by rw [List.length_take]; omega
    omega
  -- cardinalities agree, so the inclusion is an equality
  have htknodup : ((S.take k').map f).Nodup := by
    have : (S.map f).Nodup := (hSperm.map f).nodup_iff.2 hmnodup
    rw [List.map_take]
    exact this.sublist (List.take_sublist _ _)
  have htklen : ((S.take k').map f).length = min k' ps.length := by
    rw [List.length_map, List.length_take, hSlen]
  have hsub : ((S.take k').map f).toFinset ⊆ H.toFinset := by
    intro y hy
    rw [List.mem_toFinset] at hy ⊢
    exact hcomplete y hy
  have hcard : H.toFinset.card ≤ ((S.take k').map f).toFinset.card := by
    rw [List.toFinset_card_of_nodup hHnodup,
      List.toFinset_card_of_nodup htknodup, hHlen, htklen]
    omega
  exact (Finset.eq_of_subset_of_card_le hsub hcard).symm

/-- **C1** (corrected).  For a KD-tree built over points of one dimension
`D > 0` whose Euclidean distances to the query are pairwise distinct, with a
query vector of length `D` and `k > 0`, the build succeeds and `query`
returns exactly the id set of a brute-force Euclidean top-k over the same
point set.  (On distance ties the two sets can genuinely differ — the heap
evicts by the `(-distance, id)` tuple order while the brute force keeps the
first-inserted point — so the claim's "order may differ on ties" hedge is
not enough; see the tie counterexample.) -/
theorem kdtree_query_set_eq_brute_force {D k' : ℕ} (hD : 0 < D) (hk : 1 ≤ k')
    (ps : List (List ℝ)) (ids : List String) (target : List ℝ)
    (hlen : ps.length = ids.length) (hdim : ∀ v ∈ ps, v.length = D)
    (htl : target.length = D)
    (hdist : (ps.map fun v => euclidean_distance target v).Nodup) :
    ∃ st : KDTreeIndexState, KDTreeIndex.build ps ids = .ok st ∧
      ∃ res : List (String × ℝ), KDTreeIndex.query st target (k' : ℤ) = .ok res ∧
        (res.map Prod.fst).toFinset
          = (bruteForceTopK ps ids target (k' : ℤ)).toFinset := by
  have hknot : ¬ ((k' : ℤ) ≤ 0) := by omega
  have hkt : ((k' : ℤ)).toNat = k' := by omega
  have hval : validate_inputs ps ids = .ok () := by
    refine validate_inputs_ok ps ids hlen fun v hv => ?_
    cases ps with
    | nil => simp at hv
    | cons p0 rest =>
      rw [hdim v hv, List.headD_cons, hdim p0 (List.mem_cons_self _ _)]
  cases hps : ps with
  | nil =>
    subst hps
    have hids : ids = [] := List.length_eq_zero.1 (by simp at hlen; omega)
    subst hids
    refine ⟨⟨.nil, 0⟩, by rfl, [], ?_, by simp [bruteForceTopK]⟩
    unfold KDTreeIndex.query
    have hdimnot : ¬ ((0 : ℕ) ≠ 0 ∧ target.length ≠ 0) := by simp
    rw [if_neg hknot, if_neg hdimnot]
    simp [kd_query, sortEntriesDesc]
  | cons p0 rest =>
    have hp0 : p0.length = D := hdim p0 (by rw [hps]; exact List.mem_cons_self _ _)
    rw [← hps]
    have hbuild : KDTreeIndex.build ps ids
        = .ok ⟨build_kd ps ids 0, p0.length⟩ := by
      unfold KDTreeIndex.build
      rw [hval, hps]
      rfl
    refine ⟨⟨build_kd ps ids 0, p0.length⟩, hbuild, ?_⟩
    have hdimnot : ¬ (p0.length ≠ 0 ∧ target.length ≠ p0.length) := by
      rintro ⟨h1, h2⟩
      exact h2 (by rw [htl, hp0])
    have hquery : KDTreeIndex.query ⟨build_kd ps ids 0, p0.length⟩ target (k' : ℤ)
        = .ok ((sortEntriesDesc (kd_query target (k' : ℤ) (build_kd ps ids 0) [])).map
            fun e => (e.2, 1 / (1 + -e.1))) := by
      unfold KDTreeIndex.query
      rw [if_neg hknot, if_neg hdimnot]
    refine ⟨_, hquery, ?_⟩
    have hfinset := kd_query_toFinset_eq hD hk ps ids target hlen hdim htl hdist
    have hmemiff : ∀ y, y ∈ kd_query target (k' : ℤ) (build_kd ps ids 0) []
        ↔ y ∈ ((List.insertionSort
            (fun a b => euclidean_distance target a.1 ≤ euclidean_distance target b.1)
            (ps.zip ids)).take k').map
              fun a => (-euclidean_distance target a.1, a.2) := by
      intro y
      rw [← List.mem_toFinset, hfinset, List.mem_toFinset]
    have hperm : (sortEntriesDesc (kd_query target (k' : ℤ) (build_kd ps ids 0) [])).Perm
        (kd_query target (k' : ℤ) (build_kd ps ids 0) []) :=
      List.perm_insertionSort _ _
    have hmap : (((sortEntriesDesc (kd_query target (k' : ℤ) (build_kd ps ids 0) [])).map
          fun e => (e.2, 1 / (1 + -e.1))).map Prod.fst)
        = (sortEntriesDesc (kd_query target (k' : ℤ) (build_kd ps ids 0) [])).map
            fun e => e.2 := by
      rw [List.map_map]
      exact List.map_congr_left fun _ _ => rfl
    rw [hmap]
    simp only [bruteForceTopK]
    rw [hkt]
    ext b
    rw [List.mem_toFinset, List.mem_toFinset]
    constructor
    · intro hb
      obtain ⟨y, hy, rfl⟩ := List.mem_map.1 hb
      obtain ⟨a, ha, hfa⟩ := List.mem_map.1 ((hmemiff y).1 (hperm.subset hy))
      exact List.mem_map.2 ⟨a, ha, by rw [← hfa]⟩
    · intro hb
      obtain ⟨a, ha, rfl⟩ := List.mem_map.1 hb
      exact List.mem_map.2 ⟨(-euclidean_distance target a.1, a.2),
        hperm.mem_iff.2 ((hmemiff _).2 (List.mem_map_of_mem _ ha)), rfl⟩

/-- **C1 counterexample.**  On a distance tie the KD-tree and the brute
force disagree as *sets*, not merely in order: over points `[0]` and `[2]`
with ids `"a"`, `"b"` and query `[1]` (both points at distance 1), `k = 1`
returns id `"b"` from the KD-tree — the bounded heap holds `(-1, "a")` and
`(-1, "b")` and `heappop` evicts the tuple-least entry `(-1, "a")` — while
the stable brute-force sort returns `"a"`. -/
theorem kdtree_tie_differs_from_brute_force :
    ∃ st : KDTreeIndexState,
      KDTreeIndex.build [[0], [2]] ["a", "b"] = .ok st ∧
      ∃ res : List (String × ℝ),
        KDTreeIndex.query st [1] (1 : ℤ) = .ok res ∧
        res.map Prod.fst = ["b"] ∧
        bruteForceTopK [[0], [2]] ["a", "b"] [1] (1 : ℤ) = ["a"] := by
  have hd20 : euclidean_distance [1] [0] = 1 := by
    simp only [euclidean_distance, List.zip_cons_cons, List.zip_nil_right,
      List.map_cons, List.map_nil, List.sum_cons, List.sum_nil]
    norm_num
  have hd22 : euclidean_distance [1] [2] = 1 := by
    simp only [euclidean_distance, List.zip_cons_cons, List.zip_nil_right,
      List.map_cons, List.map_nil, List.sum_cons, List.sum_nil]
    norm_num
  have hroot : build_kd [[0], [2]] ["a", "b"] 0
      = KDNode.node [2] "b" 0 (KDNode.node [0] "a" 0 .nil .nil) .nil := by
    norm_num [build_kd, List.insertionSort, List.orderedInsert, List.getD]
  have hpushA : heapPush (1 : ℤ) (-1, "b") [] = [((-1 : ℝ), "b")] := by
    simp [heapPush, List.orderedInsert]
  have hab : entryLe (-1, "a") (-1, "b") :=
    Or.inr ⟨rfl, by rw [String.le_iff_toList_le]; decide⟩
  have hpushB : heapPush (1 : ℤ) (-1, "a") [((-1 : ℝ), "b")] = [((-1 : ℝ), "b")] := by
    unfold heapPush
    rw [List.orderedInsert, if_pos hab]
    simp
  have hqL : kd_query [1] (1 : ℤ) (KDNode.node [0] "a" 0 .nil .nil)
      [((-1 : ℝ), "b")] = [((-1 : ℝ), "b")] := by
    simp only [kd_query, hd20, hpushB]
    rw [if_neg (by norm_num [List.getD])]
    rw [if_neg (by norm_num [List.getD])]
  have hqR : kd_query [1] (1 : ℤ)
      (KDNode.node [2] "b" 0 (KDNode.node [0] "a" 0 .nil .nil) .nil) []
      = [((-1 : ℝ), "b")] := by
    rw [kd_query]
    simp only [hd22, hpushA]
    rw [if_pos (by norm_num [List.getD] : ([1].getD 0 0 : ℝ) - [2].getD 0 0 < 0)]
    rw [hqL]
    simp [kd_query]
  have hbuild : KDTreeIndex.build [[0], [2]] ["a", "b"]
      = .ok ⟨KDNode.node [2] "b" 0 (KDNode.node [0] "a" 0 .nil .nil) .nil, 1⟩ := by
    show Except.ok (⟨build_kd [[0], [2]] ["a", "b"] 0, 1⟩ : KDTreeIndexState) = _
    rw [hroot]
  have hsortd : sortEntriesDesc [((-1 : ℝ), "b")] = [((-1 : ℝ), "b")] := rfl
  have hquery : KDTreeIndex.query
      ⟨KDNode.node [2] "b" 0 (KDNode.node [0] "a" 0 .nil .nil) .nil, 1⟩ [1] (1 : ℤ)
      = .ok [("b", 1 / 2)] := by
    unfold KDTreeIndex.query
    rw [if_neg (show ¬ ((1 : ℤ) ≤ 0) by norm_num),
      if_neg (show ¬ ((1 : ℕ) ≠ 0 ∧ ([1] : List ℝ).length ≠ 1) by simp)]
    show Except.ok ((sortEntriesDesc (kd_query [1] (1 : ℤ)
        (KDNode.node [2] "b" 0 (KDNode.node [0] "a" 0 .nil .nil) .nil) [])).map
          fun e => (e.2, 1 / (1 + -e.1))) = _
    rw [hqR, hsortd]
    norm_num
  have hbrute : bruteForceTopK [[0], [2]] ["a", "b"] [1] (1 : ℤ) = ["a"] := by
    simp only [bruteForceTopK, List.zip_cons_cons, List.zip_nil_right,
      List.insertionSort, List.orderedInsert]
    rw [if_pos (le_of_eq (hd20.trans hd22.symm))]
    simp
  exact ⟨_, hbuild, [("b", 1 / 2)], hquery, by simp, hbrute⟩

/-- Witness for the corrected C1 theorem at a concrete instance with
pairwise-distinct distances: points `[1]`, `[2]`, query `[0]`, `k = 1`. -/
theorem kdtree_query_set_eq_brute_force_witness :
    (0 < 1 ∧ 1 ≤ 1 ∧
      ([[1], [2]] : List (List ℝ)).length = (["a", "b"] : List String).length ∧
      (∀ v ∈ ([[1], [2]] : List (List ℝ)), v.length = 1) ∧
      ([0] : List ℝ).length = 1 ∧
      (([[1], [2]] : List (List ℝ)).map fun v => euclidean_distance [0] v).Nodup) ∧
    (∃ st : KDTreeIndexState, KDTreeIndex.build [[1], [2]] ["a", "b"] = .ok st ∧
      ∃ res : List (String × ℝ),
        KDTreeIndex.query st [0] ((1 : ℕ) : ℤ) = .ok res ∧
        (res.map Prod.fst).toFinset
          = (bruteForceTopK [[1], [2]] ["a", "b"] [0] ((1 : ℕ) : ℤ)).toFinset) := by
  have h1 : euclidean_distance [0] [1] = 1 := by
    simp only [euclidean_distance, List.zip_cons_cons, List.zip_nil_right,
      List.map_cons, List.map_nil, List.sum_cons, List.sum_nil]
    norm_num
  have h2 : euclidean_distance [0] [2] = 2 := by
    simp only [euclidean_distance, List.zip_cons_cons, List.zip_nil_right,
      List.map_cons, List.map_nil, List.sum_cons, List.sum_nil]
    rw [show ((0 : ℝ) - 2) ^ 2 + 0 = 2 ^ 2 by norm_num]
    exact Real.sqrt_sq (by norm_num)
  have hdim : ∀ v ∈ ([[1], [2]] : List (List ℝ)), v.length = 1 := by
    intro v hv
    fin_cases hv <;> rfl
  have hnd : (([[1], [2]] : List (List ℝ)).map
      fun v => euclidean_distance [0] v).Nodup := by
    simp [h1, h2]
  exact ⟨⟨Nat.one_pos, le_refl 1, rfl, hdim, rfl, hnd⟩,
    kdtree_query_set_eq_brute_force Nat.one_pos (le_refl 1) [[1], [2]] ["a", "b"]
      [0] rfl hdim rfl hnd⟩

/-! ## C2: the query contract of the three index variants -/

theorem euclidean_distance_nonneg (a b : List ℝ) : 0 ≤ euclidean_distance a b :=
  Real.sqrt_nonneg _

theorem kd_query_subperm (target : List ℝ) (k : ℤ) (T : KDNode) :
    (kd_query target k T []).Subperm (T.pushes target) := by
  have h := kd_query_mset target k T []
  simp only [Multiset.coe_nil, zero_add] at h
  exact Multiset.coe_le.1 h

/-- Mapping heap entries with nonpositive keys to the similarity score
`1 / (1 + d)` turns a descending-key sort into a descending-score list. -/
theorem sorted_map_score {l : List (ℝ × String)} (hneg : ∀ e ∈ l, e.1 ≤ 0)
    (hs : List.Sorted (fun a b => entryLe b a) l) :
    List.Sorted (fun x y => y.2 ≤ x.2)
      (l.map fun e => (e.2, 1 / (1 + -e.1))) := by
  induction l with
  | nil => simp
  | cons a t ih =>
    rw [List.map_cons, List.sorted_cons]
    rw [List.sorted_cons] at hs
    refine ⟨?_, ih (fun e he => hneg e (List.mem_cons_of_mem _ he)) hs.2⟩
    intro b hb
    obtain ⟨e, he, rfl⟩ := List.mem_map.1 hb
    have h1 : e.1 ≤ a.1 := entryLe_fst (hs.1 e he)
    have he0 : e.1 ≤ 0 := hneg e (List.mem_cons_of_mem _ he)
    have ha0 : a.1 ≤ 0 := hneg a (List.mem_cons_self _ _)
    exact one_div_le_one_div_of_le (by linarith) (by linarith)

theorem linear_build_ok {metric : String} {vs : List (List ℝ)}
    {ids : List String} {st : LinearIndexState}
    (h : LinearIndex.build metric vs ids = .ok st) :
    st = ⟨metric, vs, ids⟩ := by
  unfold LinearIndex.build at h
  cases hv : validate_inputs vs ids with
  | error e => rw [hv] at h; simp [Bind.bind, Except.bind] at h
  | ok u => rw [hv] at h; simp [Bind.bind, Except.bind] at h; exact h.symm

theorem kd_build_ok {vs : List (List ℝ)} {ids : List String}
    {st : KDTreeIndexState} (h : KDTreeIndex.build vs ids = .ok st) :
    (vs = [] ∧ st = ⟨.nil, 0⟩) ∨
      (∃ v0 rest, vs = v0 :: rest ∧ st = ⟨build_kd vs ids 0, v0.length⟩) := by
  unfold KDTreeIndex.build at h
  cases hv : validate_inputs vs ids with
  | error e => rw [hv] at h; simp [Bind.bind, Except.bind] at h
  | ok u =>
    rw [hv] at h
    cases vs with
    | nil =>
      simp [Bind.bind, Except.bind] at h
      exact Or.inl ⟨rfl, h.symm⟩
    | cons v0 rest =>
      simp [Bind.bind, Except.bind] at h
      exact Or.inr ⟨v0, rest, rfl, h.symm⟩

theorem lsh_build_ok {np nt : ℕ} {pg : ℕ → List (List (List ℝ))}
    {vs : List (List ℝ)} {ids : List String} {st : LSHIndexState}
    (h : LSHIndex.build np nt pg vs ids = .ok st) :
    (vs = [] ∧ st = ⟨np, nt, [], [], 0⟩) ∨
      (∃ v0 rest, vs = v0 :: rest ∧ st.dim = v0.length) := by
  unfold LSHIndex.build at h
  cases hv : validate_inputs vs ids with
  | error e => rw [hv] at h; simp [Bind.bind, Except.bind] at h
  | ok u =>
    rw [hv] at h
    cases vs with
    | nil =>
      simp [Bind.bind, Except.bind] at h
      exact Or.inl ⟨rfl, h.symm⟩
    | cons v0 rest =>
      simp [Bind.bind, Except.bind] at h
      exact Or.inr ⟨v0, rest, rfl, by rw [← h]⟩

/-- **C2** (corrected).  For every index variant and every built state:
`query` returns at most `k` pairs sorted by score descending, and the empty
list when `k ≤ 0` or the index is empty.  The `DimensionMismatch` guarantee
holds for a non-empty index with `k > 0` only when the built dimensionality
is nonzero: `self._dim` is falsy at dimensionality `0`, so a non-empty LSH
index built over zero-length vectors skips the check (the counterexample);
the linear index compares against `vectors[0]` directly and still raises,
and a zero-dimensional KD-tree build is unreachable (`depth % k` raises
`ZeroDivisionError` in Python before a state exists), so for those two the
amendment is vacuous. -/
theorem index_query_contract :
    (∀ (metric : String) (vs : List (List ℝ)) (ids : List String)
        (st : LinearIndexState), LinearIndex.build metric vs ids = .ok st →
      (∀ (v : List ℝ) (k : ℤ) (res : List (String × ℝ)),
          LinearIndex.query st v k = .ok res →
          res.length ≤ k.toNat ∧ List.Sorted (fun x y => y.2 ≤ x.2) res) ∧
      (∀ (v : List ℝ) (k : ℤ), k ≤ 0 ∨ vs = [] →
          LinearIndex.query st v k = .ok []) ∧
      (∀ (v : List ℝ) (k : ℤ), 0 < k → vs ≠ [] →
          v.length ≠ (vs.headD []).length →
          LinearIndex.query st v k = .error .dimensionMismatch)) ∧
    (∀ (vs : List (List ℝ)) (ids : List String) (st : KDTreeIndexState),
        KDTreeIndex.build vs ids = .ok st →
      (∀ (v : List ℝ) (k : ℤ) (res : List (String × ℝ)),
          KDTreeIndex.query st v k = .ok res →
          res.length ≤ k.toNat ∧ List.Sorted (fun x y => y.2 ≤ x.2) res) ∧
      (∀ (v : List ℝ) (k : ℤ), k ≤ 0 ∨ vs = [] →
          KDTreeIndex.query st v k = .ok []) ∧
      (∀ (v : List ℝ) (k : ℤ), 0 < k → vs ≠ [] →
          (vs.headD []).length ≠ 0 → v.length ≠ (vs.headD []).length →
          KDTreeIndex.query st v k = .error .dimensionMismatch)) ∧
    (∀ (np nt : ℕ) (pg : ℕ → List (List (List ℝ))) (vs : List (List ℝ))
        (ids : List String) (st : LSHIndexState),
        LSHIndex.build np nt pg vs ids = .ok st →
      (∀ (v : List ℝ) (k : ℤ) (res : List (String × ℝ)),
          LSHIndex.query st v k = .ok res →
          res.length ≤ k.toNat ∧ List.Sorted (fun x y => y.2 ≤ x.2) res) ∧
      (∀ (v : List ℝ) (k : ℤ), k ≤ 0 ∨ vs = [] →
          LSHIndex.query st v k = .ok []) ∧
      (∀ (v : List ℝ) (k : ℤ), 0 < k → vs ≠ [] →
          (vs.headD []).length ≠ 0 → v.length ≠ (vs.headD []).length →
          LSHIndex.query st v k = .error .dimensionMismatch)) := by
  refine ⟨?_, ?_, ?_⟩
  · -- linear
    intro metric vs ids st hb
    have hst := linear_build_ok hb
    subst hst
    refine ⟨?_, ?_, ?_⟩
    · intro v k res h
      simp only [LinearIndex.query] at h
      by_cases h1 : (vs = [] ∨ k ≤ 0)
      · rw [if_pos h1] at h
        obtain rfl : ([] : List (String × ℝ)) = res := Except.ok.inj h
        exact ⟨by simp, by simp⟩
      · rw [if_neg h1] at h
        by_cases h2 : v.length ≠ (vs.headD []).length
        · rw [if_pos h2] at h
          exact absurd h (by simp)
        · rw [if_neg h2] at h
          obtain rfl := (Except.ok.inj h)
          constructor
          · rw [List.length_take]
            omega
          · exact (List.sorted_insertionSort _ _).sublist (List.take_sublist _ _)
    · intro v k hk
      simp only [LinearIndex.query]
      rw [if_pos (hk.symm.imp id id)]
    · intro v k hk hvs hlen
      simp only [LinearIndex.query]
      rw [if_neg (by push_neg; exact ⟨hvs, by omega⟩), if_pos hlen]
  · -- kd-tree
    intro vs ids st hb
    refine ⟨?_, ?_, ?_⟩
    · intro v k res h
      simp only [KDTreeIndex.query] at h
      by_cases hk : k ≤ 0
      · rw [if_pos hk] at h
        obtain rfl : ([] : List (String × ℝ)) = res := Except.ok.inj h
        exact ⟨by simp, by simp⟩
      · rw [if_neg hk] at h
        by_cases h2 : (st.dim ≠ 0 ∧ v.length ≠ st.dim)
        · rw [if_pos h2] at h
          exact absurd h (by simp)
        · rw [if_neg h2] at h
          obtain rfl := (Except.ok.inj h)
          have hkeys : ∀ e ∈ kd_query v k st.root [], e.1 ≤ 0 := by
            intro e he
            have := (kd_query_subperm v k st.root).subset he
            simp only [KDNode.pushes] at this
            obtain ⟨q, _, rfl⟩ := List.mem_map.1 this
            simp only [neg_nonpos]
            exact euclidean_distance_nonneg _ _
          constructor
          · have hkeq : ((k.toNat : ℕ) : ℤ) = k := Int.toNat_of_nonneg (by omega)
            have hlen := kd_query_length_le (show 1 ≤ k.toNat by omega) v st.root []
              (by simp)
            rw [hkeq] at hlen
            simpa only [List.length_map, sortEntriesDesc,
              List.length_insertionSort] using hlen
          · refine sorted_map_score ?_ (List.sorted_insertionSort _ _)
            intro e he
            exact hkeys e ((List.perm_insertionSort _ _).subset he)
    · intro v k hk
      simp only [KDTreeIndex.query]
      rcases hk with hk | hk
      · rw [if_pos hk]
      · rcases kd_build_ok hb with ⟨_, rfl⟩ | ⟨v0, rest, hcons, _⟩
        · by_cases hkk : k ≤ 0
          · rw [if_pos hkk]
          · rw [if_neg hkk, if_neg (by simp)]
            simp [kd_query, sortEntriesDesc]
        · rw [hk] at hcons
          exact absurd hcons (by simp)
    · intro v k hk hvs hd0 hlen
      rcases kd_build_ok hb with ⟨rfl, _⟩ | ⟨v0, rest, hcons, hst⟩
      · exact absurd rfl hvs
      · subst hst
        simp only [KDTreeIndex.query]
        rw [hcons] at hd0 hlen
        simp only [List.headD_cons] at hd0 hlen
        rw [if_neg (by omega), if_pos ⟨hd0, hlen⟩]
  · -- lsh
    intro np nt pg vs ids st hb
    refine ⟨?_, ?_, ?_⟩
    · intro v k res h
      simp only [LSHIndex.query] at h
      by_cases hk : k ≤ 0
      · rw [if_pos hk] at h
        obtain rfl : ([] : List (String × ℝ)) = res := Except.ok.inj h
        exact ⟨by simp, by simp⟩
      · rw [if_neg hk] at h
        by_cases h2 : (st.dim ≠ 0 ∧ v.length ≠ st.dim)
        · rw [if_pos h2] at h
          exact absurd h (by simp)
        · rw [if_neg h2] at h
          obtain rfl := (Except.ok.inj h)
          constructor
          · rw [List.length_take]
            omega
          · exact (List.sorted_insertionSort _ _).sublist (List.take_sublist _ _)
    · intro v k hk
      simp only [LSHIndex.query]
      rcases hk with hk | hk
      · rw [if_pos hk]
      · rcases lsh_build_ok hb with ⟨_, rfl⟩ | ⟨v0, rest, hcons, _⟩
        · by_cases hkk : k ≤ 0
          · rw [if_pos hkk]
          · rw [if_neg hkk, if_neg (by simp)]
            simp [sortByScoreDesc, List.insertionSort]
        · rw [hk] at hcons
          exact absurd hcons (by simp)
    · intro v k hk hvs hd0 hlen
      rcases lsh_build_ok hb with ⟨rfl, _⟩ | ⟨v0, rest, hcons, hst⟩
      · exact absurd rfl hvs
      · simp only [LSHIndex.query]
        rw [hcons] at hd0 hlen
        simp only [List.headD_cons] at hd0 hlen
        rw [hst]
        rw [if_neg (by omega), if_pos ⟨hd0, hlen⟩]

/-- **C2 counterexample.**  A non-empty LSH index built over a zero-length
vector stores `_dim = 0`, and `if self._dim and len(vector) != self._dim`
is then falsy, so a query whose length differs from the built dimensionality
is answered instead of failing with `DimensionMismatch`.  (With one table
and one plane the gaussian plane for dimension 0 is forced: the empty
list.) -/
theorem lsh_zero_dim_skips_dimension_check :
    ∃ st : LSHIndexState,
      LSHIndex.build 1 1 (fun _ => [[[]]]) [[]] ["a"] = .ok st ∧
      st.dim = 0 ∧ ([0] : List ℝ).length ≠ st.dim ∧
      LSHIndex.query st [0] (1 : ℤ) = .ok [("a", 0)] := by
  have hdote : dot ([] : List ℝ) [] = 0 := rfl
  have hdot0 : dot ([0] : List ℝ) [] = 0 := rfl
  have hhash1 : lshHash [] [[]] = 1 := by
    show (if (0 : ℝ) ≤ dot [] [] then (0 ||| 1 <<< 0 : ℕ) else 0) = 1
    rw [if_pos (le_of_eq hdote.symm)]
    rfl
  have hhash2 : lshHash [0] [[]] = 1 := by
    show (if (0 : ℝ) ≤ dot [0] [] then (0 ||| 1 <<< 0 : ℕ) else 0) = 1
    rw [if_pos (le_of_eq hdot0.symm)]
    rfl
  have hcos : cosine_similarity [0] ([] : List ℝ) = 0 := by
    unfold cosine_similarity
    rw [if_pos (Or.inr (by simp [norm]))]
  have hbuild : LSHIndex.build 1 1 (fun _ => [[[]]]) [[]] ["a"]
      = .ok ⟨1, 1, [[[]]], [[(1, [("a", ([] : List ℝ))])]], 0⟩ := by
    show Except.ok (⟨1, 1, [[[]]],
      [bucketAppend [] (lshHash [] [[]]) ("a", [])], 0⟩ : LSHIndexState) = _
    rw [hhash1]
    rfl
  have hbg1 : bucketGet [(1, [("a", ([] : List ℝ))])] 1 = [("a", [])] := rfl
  have hbg0 : bucketGet [(1, [("a", ([] : List ℝ))])] 0 = [] := rfl
  have hquery : LSHIndex.query ⟨1, 1, [[[]]], [[(1, [("a", ([] : List ℝ))])]], 0⟩
      [0] (1 : ℤ) = .ok [("a", 0)] := by
    simp only [LSHIndex.query]
    rw [if_neg (show ¬ ((1 : ℤ) ≤ 0) by norm_num),
      if_neg (show ¬ ((0 : ℕ) ≠ 0 ∧ ([0] : List ℝ).length ≠ 0) by simp)]
    simp only [List.zip_cons_cons, List.zip_nil_right, List.foldl_cons,
      List.foldl_nil]
    rw [hhash2]
    rw [show (min 2 1 : ℕ) = 1 from rfl, show List.range 1 = [0] from rfl]
    simp only [List.foldl_cons, List.foldl_nil]
    rw [show ((1 : ℕ) ^^^ 1 <<< 0) = 0 from rfl]
    rw [hbg1, hbg0]
    simp only [List.foldl_cons, List.foldl_nil, candInsert, List.find?_nil,
      Option.isSome_none, Bool.false_eq_true, if_false, List.nil_append,
      List.map_cons, List.map_nil]
    rw [hcos]
    simp [sortByScoreDesc, List.insertionSort]
  exact ⟨_, hbuild, rfl, by simp, hquery⟩

/-- Witness for the corrected C2 contract: a concrete linear index over
`[[1]]` rejects the two-dimensional query `[0, 0]` with `DimensionMismatch`. -/
theorem index_query_contract_witness :
    LinearIndex.build "cosine" [[1]] ["a"] = .ok ⟨"cosine", [[1]], ["a"]⟩ ∧
    (0 : ℤ) < 1 ∧ ([[1]] : List (List ℝ)) ≠ [] ∧
    ([0, 0] : List ℝ).length ≠ (([[1]] : List (List ℝ)).headD []).length ∧
    LinearIndex.query ⟨"cosine", [[1]], ["a"]⟩ [0, 0] 1
      = .error .dimensionMismatch :=
  ⟨rfl, one_pos, by simp, by simp,
    (index_query_contract.1 "cosine" [[1]] ["a"] ⟨"cosine", [[1]], ["a"]⟩ rfl).2.2
      [0, 0] 1 one_pos (by simp) (by simp)⟩

end VectorDB
